import Mathlib

/-!
# rtpgen: RTP packet stream generator

A shallow embedding of `src/rtpgen.c` (UNIX build, no `WIN32`).

* Bytes are natural numbers below 256; `uint16_t` / `uint32_t` objects are
  natural numbers reduced modulo `2^16` / `2^32`.
* The host byte order is a parameter (`Endian`); `memcpy` of a scalar copies
  its in-memory representation for that byte order.
* `float` is IEEE-754 binary32 evaluated in single precision with
  round-to-nearest-even, `double` is binary64.  A finite value is
  `(-1)^neg * num / 2^scale`.
  A float-to-integer conversion whose truncated value does not fit the
  target type has no defined result and is modelled by `none`.
* The operating system (files, `socket`, `sendto`, `nanosleep`, `rand`) is an
  explicit environment argument.
* `getUnixTimestamp` / `htonll` are evaluated by the loop but their result
  (`networkUnixTimestamp`) is never read, so they are left out of the state.
-/

namespace Rtpgen

/-! ## Byte order and memory -/

/-- Byte order of the host the program runs on. -/
inductive Endian where
  | little
  | big
deriving DecidableEq

/-- In-memory representation of a `uint16_t` object holding `v`. -/
def mem16 (e : Endian) (v : Nat) : List Nat :=
  match e with
  | Endian.little => [v % 256, v / 256 % 256]
  | Endian.big => [v / 256 % 256, v % 256]

/-- In-memory representation of a `uint32_t` object holding `v`. -/
def mem32 (e : Endian) (v : Nat) : List Nat :=
  match e with
  | Endian.little => [v % 256, v / 256 % 256, v / 65536 % 256, v / 16777216 % 256]
  | Endian.big => [v / 16777216 % 256, v / 65536 % 256, v / 256 % 256, v % 256]

/-- Library function `htons`: identity on a big-endian host, byte swap otherwise. -/
def htons (e : Endian) (v : Nat) : Nat :=
  match e with
  | Endian.big => v % 65536
  | Endian.little => (v % 256) * 256 + v / 256 % 256

/-- Library function `htonl`: identity on a big-endian host, byte reversal otherwise. -/
def htonl (e : Endian) (v : Nat) : Nat :=
  match e with
  | Endian.big => v % 4294967296
  | Endian.little =>
      (v % 256) * 16777216 + (v / 256 % 256) * 65536 + (v / 65536 % 256) * 256
        + v / 16777216 % 256

/-- The call `memcpy(&buff[off], src, src.length)` on a byte buffer. -/
def memcpy (buff : List Nat) (off : Nat) (src : List Nat) : List Nat :=
  buff.take off ++ src ++ buff.drop (off + src.length)

/-! ## Single-precision arithmetic -/

/-- A value of C type `float` (binary32). `fin neg num scale` is
`(-1)^neg * num / 2^scale`. -/
inductive F32 where
  | nan
  | inf (neg : Bool)
  | fin (neg : Bool) (num : Nat) (scale : Nat)
deriving DecidableEq

/-- Auxiliary for `ilog2`, recursion on fuel. -/
def log2Aux : Nat → Nat → Nat
  | 0, _ => 0
  | fuel + 1, n => if n < 2 then 0 else log2Aux fuel (n / 2) + 1

/-- Floor of the base-2 logarithm of a positive natural number. -/
def ilog2 (n : Nat) : Nat := log2Aux n n

/-- Test that the dyadic `num / 2^scale`, written without superfluous factors of
two, is a binary32 value: at most 24 significant bits, least significant bit
not below `2^-149`, magnitude below `2^128`. -/
def isBinary32 (num scale : Nat) : Bool :=
  let sh := ilog2 num - 23
  decide (num / 2 ^ sh * 2 ^ sh = num) && decide (scale ≤ 149 + sh)
    && decide (num < 2 ^ (128 + scale))

/-- Well-formedness of a `float` value. -/
def F32.valid : F32 → Bool
  | F32.nan => true
  | F32.inf _ => true
  | F32.fin _ num scale => isBinary32 num scale

/-- The `float` with integer value `n`. -/
def F32.ofNat (n : Nat) : F32 := F32.fin false n 0

/-- The C comparison `x > n` for a `float` x and an `int` constant n that is
exactly representable (the constant is converted to `float` first). -/
def F32.gtNat (x : F32) (n : Nat) : Bool :=
  match x with
  | F32.nan => false
  | F32.inf neg => !neg
  | F32.fin neg num scale => !neg && decide (n * 2 ^ scale < num)

/-- Nearest integer to `n / d`, ties to even. -/
def roundNearestEven (n d : Nat) : Nat :=
  let f := n / d
  let r := n % d
  if 2 * r < d then f else if d < 2 * r then f + 1 else f + f % 2

/-- Floor of the base-2 logarithm of the positive rational `n / d`. -/
def floorLog2 (n d : Nat) : Int :=
  if d ≤ n then (ilog2 (n / d) : Int) else -((ilog2 ((d - 1) / n) : Int) + 1)

/-- Rounding of the positive rational `n / d` to binary32 precision
(round to nearest, ties to even; 24-bit significand, minimum exponent -149).
The result `(sig, ex)` stands for `sig * 2^ex`. -/
def roundBinary32 (n d : Nat) : Nat × Int :=
  let ex : Int := if floorLog2 n d - 23 < -149 then -149 else floorLog2 n d - 23
  if 0 ≤ ex then (roundNearestEven n (d * 2 ^ ex.toNat), ex)
  else (roundNearestEven (n * 2 ^ (-ex).toNat) d, ex)

/-- Integer part of `sig * 2^ex`. -/
def truncToNat (v : Nat × Int) : Nat :=
  if 0 ≤ v.2 then v.1 * 2 ^ v.2.toNat else v.1 / 2 ^ (-v.2).toNat

/-- Magnitude of the single-precision quotient `N / (num / 2^scale)` with the
fractional part discarded. -/
def quotTrunc (N num scale : Nat) : Nat :=
  truncToNat (roundBinary32 (N * 2 ^ scale) num)

/-- The C expression `N / rate` for a positive `int` constant `N` that is exactly
representable in binary32 and a `float` rate, with the fractional part
discarded, as happens in a conversion to an integer type. `none` when the
quotient is a NaN or an infinity. -/
def F32.natDivTrunc (N : Nat) (rate : F32) : Option Int :=
  match rate with
  | F32.nan => none
  | F32.inf _ => some 0
  | F32.fin neg num scale =>
      if num = 0 then none
      else
        let t := quotTrunc N num scale
        if 2 ^ 128 ≤ t then none
        else some (if neg then -(t : Int) else (t : Int))

/-- Conversion of a truncated floating value to `uint32_t`; defined only when
the value is representable. -/
def toUInt32 (z : Option Int) : Option Nat :=
  match z with
  | none => none
  | some v => if 0 ≤ v ∧ v < 4294967296 then some v.toNat else none

/-- Conversion of a truncated floating value to `long long`; defined only when
the value is representable. -/
def toInt64 (z : Option Int) : Option Int :=
  match z with
  | none => none
  | some v => if -9223372036854775808 ≤ v ∧ v < 9223372036854775808 then some v else none

/-- A value of C type `double` (binary64), as returned by `atof`.
`fin neg num scale` is `(-1)^neg * num / 2^scale`. -/
inductive F64 where
  | nan
  | inf (neg : Bool)
  | fin (neg : Bool) (num : Nat) (scale : Nat)
deriving DecidableEq

/-- Test that the dyadic `num / 2^scale`, written without superfluous factors of
two, is a binary64 value: at most 53 significant bits, least significant bit
not below `2^-1074`, magnitude below `2^1024`. -/
def isBinary64 (num scale : Nat) : Bool :=
  let sh := ilog2 num - 52
  decide (num / 2 ^ sh * 2 ^ sh = num) && decide (scale ≤ 1074 + sh)
    && decide (ilog2 num < 1024 + scale)

/-- Well-formedness of a `double` value. -/
def F64.valid : F64 → Bool
  | F64.nan => true
  | F64.inf _ => true
  | F64.fin _ num scale => isBinary64 num scale

/-- The `double` with integer value `n`. -/
def F64.ofNat (n : Nat) : F64 := F64.fin false n 0

/-- Conversion of a `double` to `float`, as in the assignment
`sendRate = atof(optarg)`: a value that is a binary32 value is kept, any other
finite value is rounded to the nearest binary32 value (ties to even), and
a result of magnitude `2^128` or more is an infinity. -/
def F64.toFloat : F64 → F32
  | F64.nan => F32.nan
  | F64.inf neg => F32.inf neg
  | F64.fin neg num scale =>
      if isBinary32 num scale then F32.fin neg num scale
      else
        let v := roundBinary32 num (2 ^ scale)
        if 0 ≤ v.2 then
          (if 2 ^ 128 ≤ v.1 * 2 ^ v.2.toNat then F32.inf neg
            else F32.fin neg (v.1 * 2 ^ v.2.toNat) 0)
        else F32.fin neg v.1 (-v.2).toNat

/-! ## Program state -/

/-- The C structure `struct timespec`. -/
structure Timespec where
  tv_sec : Int
  tv_nsec : Int
deriving DecidableEq

/-- The global variables of the program that the modelled code reads or writes,
together with the static local `rtpTime` of `getRtpTimestamp`. -/
structure State where
  address : List Char
  DEBUG : Int
  servPort : Int
  sendRate : F32
  to_sleep : Timespec
  networkRtpHeader : Nat
  networkMpegVideoHeader : Nat
  sequenceNumber : Nat
  networkSequenceNumber : Nat
  networkRtpTimestamp : Nat
  ssrc : Nat
  packetBuffer : List Nat
  payload : List Nat
  payloadLength : Int
  rtpTime : Nat
deriving DecidableEq

/-- The initialiser `uint16_t RtpHeader = 0x8020`. -/
def RtpHeader : Nat := 0x8020

/-- The initialiser `uint32_t mpegVideoHeader = 0x00000000`. -/
def mpegVideoHeader : Nat := 0

/-- The bytes of the string literal `"TEST PAYLOAD"` followed by its terminator,
that is the `strlen(testMessage)+1` bytes copied at start-up. -/
def testMessage : List Nat := [84, 69, 83, 84, 32, 80, 65, 89, 76, 79, 65, 68, 0]

/-- State at program start: objects with static storage are zero-initialised. -/
def initialState : State :=
  { address := []
    DEBUG := 0
    servPort := 0
    sendRate := F32.fin false 0 0
    to_sleep := ⟨0, 0⟩
    networkRtpHeader := 0
    networkMpegVideoHeader := 0
    sequenceNumber := 0
    networkSequenceNumber := 0
    networkRtpTimestamp := 0
    ssrc := 0
    packetBuffer := List.replicate 1500 0
    payload := List.replicate 1484 0
    payloadLength := 0
    rtpTime := 0 }

/-! ## Functions of the program -/

/-- Function `getRtpTimestamp`: adds `(uint32_t)(90000/rate)` to the static
accumulator and returns it. The result is the new accumulator value. -/
def getRtpTimestamp (rate : F32) (rtpTime : Nat) : Option Nat :=
  match toUInt32 (F32.natDivTrunc 90000 rate) with
  | none => none
  | some step => some ((rtpTime + step) % 4294967296)

/-- Function `makePacket`: the six `memcpy` calls, on the given buffer. -/
def makePacket (e : Endian) (st : State) (buff : List Nat) : List Nat :=
  let b1 := memcpy buff 0 (mem16 e st.networkRtpHeader)
  let b2 := memcpy b1 2 (mem16 e st.networkSequenceNumber)
  let b3 := memcpy b2 4 (mem32 e st.networkRtpTimestamp)
  let b4 := memcpy b3 8 (mem32 e st.ssrc)
  let b5 := memcpy b4 12 (mem32 e st.networkMpegVideoHeader)
  memcpy b5 16 (st.payload.take st.payloadLength.toNat)

/-- Number of bytes `udpSendPacket` hands to `sendto`: `payloadLength+16`. -/
def sendLength (st : State) : Int := st.payloadLength + 16

/-- Function `udpSendPacket`: the datagram handed to `sendto` and the return
value (`1`, or `-1` when `sendto` fails). Nothing is printed: the `perror`
call is commented out in the source. -/
def udpSendPacket (st : State) (packet : List Nat) (sendtoOk : Bool) :
    List Nat × Int × List String :=
  (packet.take (sendLength st).toNat, if sendtoOk then 1 else -1, [])

/-- One hexadecimal digit, upper case. -/
def hexDigit (d : Nat) : Char :=
  if d < 10 then Char.ofNat (48 + d) else Char.ofNat (55 + d)

/-- The output of `printf("%2X ", b)` for a byte `b`. -/
def format2X (b : Nat) : String :=
  if b < 16 then String.mk [Char.ofNat 32, hexDigit b, Char.ofNat 32]
  else String.mk [hexDigit (b / 16), hexDigit (b % 16), Char.ofNat 32]

/-- The text printed by the `if (DEBUG)` block of the loop: the first 80 bytes
of the packet buffer, with line breaks after fixed positions. -/
def debugDump (buff : List Nat) : List String :=
  "Packet contents:\n" ::
    (List.range 80).map fun i =>
      format2X (buff.getD i 0) ++
        (if i = 16 ∨ i = 26 ∨ i = 40 ∨ i = 54 ∨ i = 60 ∨ i = 66 ∨ i = 70 ∨ i = 73
          then "\n" else "")

/-! ## The interruptible wait -/

/-- What one call of `nanosleep` does, as decided by the environment. -/
inductive SleepEvent where
  | completes
  | interrupted (slept : Nat)
  | fails
deriving DecidableEq

/-- Record of one `nanosleep` call: the request passed in and the time the
call actually slept, in nanoseconds. -/
structure SleepCall where
  request : Timespec
  slept : Nat
deriving DecidableEq

/-- Length of a `timespec` interval in nanoseconds. -/
def Timespec.ns (t : Timespec) : Int := t.tv_sec * 1000000000 + t.tv_nsec

/-- A request `nanosleep` accepts; otherwise it fails with `EINVAL`. -/
def Timespec.ok (t : Timespec) : Bool :=
  decide (0 ≤ t.tv_sec) && decide (0 ≤ t.tv_nsec) && decide (t.tv_nsec < 1000000000)

/-- The `timespec` of a number of nanoseconds. -/
def Timespec.ofNs (n : Nat) : Timespec :=
  ⟨((n / 1000000000 : Nat) : Int), ((n % 1000000000 : Nat) : Int)⟩

/-- The statement
`while ((nanosleep(&to_sleep, &to_sleep) == -1) && (errno == EINTR));`
The list gives the outcome of the successive `nanosleep` calls; when it is
used up the next call completes. An interrupted call writes the unslept time
back into `to_sleep`. Returns the final `to_sleep` and the calls made. -/
def waitLoop : Timespec → List SleepEvent → Timespec × List SleepCall
  | req, [] => (req, [⟨req, if req.ok then req.ns.toNat else 0⟩])
  | req, SleepEvent.completes :: _ => (req, [⟨req, if req.ok then req.ns.toNat else 0⟩])
  | req, SleepEvent.fails :: _ => (req, [⟨req, 0⟩])
  | req, SleepEvent.interrupted t :: rest =>
      if req.ok then
        let slept := min t req.ns.toNat
        let r := waitLoop (Timespec.ofNs (req.ns.toNat - slept)) rest
        (r.1, ⟨req, slept⟩ :: r.2)
      else (req, [⟨req, 0⟩])

/-- The lines `sleep = 1000000000 / sendRate; to_sleep.tv_sec = ...;
to_sleep.tv_nsec = ...`: the interval requested from `nanosleep`. -/
def sleepInterval (rate : F32) : Option Timespec :=
  match toInt64 (F32.natDivTrunc 1000000000 rate) with
  | none => none
  | some sleep => some ⟨Int.tdiv sleep 1000000000, Int.tmod sleep 1000000000⟩

/-! ## The streaming loop -/

/-- Environment of one loop iteration: whether `sendto` succeeds and how the
`nanosleep` calls of the wait behave. -/
structure IterEnv where
  sendtoOk : Bool
  sleeps : List SleepEvent

/-- What one loop iteration does to the outside world. -/
structure IterRecord where
  datagram : List Nat
  sendResult : Int
  output : List String
  sleepCalls : List SleepCall

/-- One iteration of the `while (1)` loop of `main`. -/
def loopIteration (e : Endian) (st : State) (env : IterEnv) : Option (State × IterRecord) :=
  match getRtpTimestamp st.sendRate st.rtpTime with
  | none => none
  | some ts =>
    let st1 := { st with rtpTime := ts, networkRtpTimestamp := htonl e ts }
    let seq := (st1.sequenceNumber + 1) % 65536
    let st2 := { st1 with sequenceNumber := seq, networkSequenceNumber := htons e seq }
    let st3 := { st2 with packetBuffer := makePacket e st2 st2.packetBuffer }
    let sent := udpSendPacket st3 st3.packetBuffer env.sendtoOk
    let out := sent.2.2 ++ (if st3.DEBUG ≠ 0 then debugDump st3.packetBuffer else [])
    match sleepInterval st3.sendRate with
    | none => none
    | some req =>
      let w := waitLoop req env.sleeps
      some ({ st3 with to_sleep := w.1 }, ⟨sent.1, sent.2.1, out, w.2⟩)

/-- The first `envs.length` iterations of the loop, with the records of the
iterations in order. -/
def runLoop (e : Endian) : State → List IterEnv → Option (State × List IterRecord)
  | st, [] => some (st, [])
  | st, env :: rest =>
    match loopIteration e st env with
    | none => none
    | some (st1, r) =>
      match runLoop e st1 rest with
      | none => none
      | some (st2, rs) => some (st2, r :: rs)

/-! ## Start-up -/

/-- What `open` and `read` yield for the file named by a `-c` option. -/
inductive PayloadFile where
  | openFails
  | readFails
  | contents (bytes : List Nat)

/-- One option as delivered by `getopt_long`, with its argument already
converted by the library (`atol` narrowed to `int` for the port, the `double`
returned by `atof` for the rate) or resolved (the payload file). -/
inductive Opt where
  | address (optarg : List Char)
  | port (value : Int)
  | rate (value : F64)
  | payload (file : PayloadFile)
  | help
  | version
  | unknown

/-- The assignments of `main` before the options are read; `randValue` is the
result of `rand()`. -/
def defaults (e : Endian) (randValue : Nat) : State :=
  { initialState with
    networkRtpHeader := htons e RtpHeader
    networkMpegVideoHeader := htonl e mpegVideoHeader
    sendRate := F32.ofNat 1
    address := "127.0.0.1".toList
    servPort := 9000
    DEBUG := 0
    ssrc := randValue % 4294967296
    payload := memcpy initialState.payload 0 testMessage
    payloadLength := 13 }

/-- One case of the option `switch`: the new state, or the exit status when
the case calls `exit`. -/
def processOption (st : State) (o : Opt) : Except Int State :=
  match o with
  | Opt.address optarg => Except.ok { st with address := optarg.take 15 }
  | Opt.port value => Except.ok { st with servPort := value }
  | Opt.rate value =>
      if (F64.toFloat value).gtNat 10000 then Except.error 0
      else Except.ok { st with sendRate := F64.toFloat value }
  | Opt.payload PayloadFile.openFails => Except.error 1
  | Opt.payload PayloadFile.readFails => Except.error 1
  | Opt.payload (PayloadFile.contents bytes) =>
      Except.ok { st with
        payload := memcpy st.payload 0 (bytes.take 1484)
        payloadLength := ((bytes.take 1484).length : Int) }
  | Opt.help => Except.error 0
  | Opt.version => Except.error 0
  | Opt.unknown => Except.error 0

/-- The `while (getopt_long ...)` loop over the options in command-line order. -/
def processOptions : State → List Opt → Except Int State
  | st, [] => Except.ok st
  | st, o :: rest =>
    match processOption st o with
    | Except.error status => Except.error status
    | Except.ok st1 => processOptions st1 rest

/-- How `main` reaches, or fails to reach, the streaming loop. -/
inductive Startup where
  | exited (status : Int) (socketCalled : Bool)
  | streaming (st : State)

/-- Function `main` up to the loop: defaults, options, `udpInit`. -/
def main (e : Endian) (randValue : Nat) (opts : List Opt) (socketOk : Bool) : Startup :=
  match processOptions (defaults e randValue) opts with
  | Except.error status => Startup.exited status false
  | Except.ok st => if socketOk then Startup.streaming st else Startup.exited (-1) true

/-- The whole program for the first `envs.length` loop iterations: the records
of the iterations performed (none when the process exits during start-up). -/
def run (e : Endian) (randValue : Nat) (opts : List Opt) (socketOk : Bool)
    (envs : List IterEnv) : Option (List IterRecord) :=
  match main e randValue opts socketOk with
  | Startup.exited _ _ => some []
  | Startup.streaming st =>
    match runLoop e st envs with
    | none => none
    | some r => some r.2

/-! ## Predicates used to state the properties -/

/-- The two float-to-integer conversions of the loop body, `(uint32_t)(90000/rate)`
and the `long long` value of `1000000000 / sendRate`, are defined for the rate. -/
def rateUsable (rate : F32) : Bool :=
  (toUInt32 (F32.natDivTrunc 90000 rate)).isSome && (sleepInterval rate).isSome

/-- The facts about the state that hold whenever the loop runs: the sizes of
the two buffers, the range of `payloadLength`, the two constant header fields
as converted by `main`, and the ranges of the unsigned counters. -/
def State.wf (e : Endian) (st : State) : Prop :=
  st.packetBuffer.length = 1500 ∧ st.payload.length = 1484 ∧
  0 ≤ st.payloadLength ∧ st.payloadLength ≤ 1484 ∧
  st.networkRtpHeader = htons e RtpHeader ∧
  st.networkMpegVideoHeader = htonl e mpegVideoHeader ∧
  st.ssrc < 4294967296 ∧ st.sequenceNumber < 65536 ∧ st.rtpTime < 4294967296

/-! ## Lemmas and properties -/

theorem log2Aux_spec : ∀ fuel n : Nat, 0 < n → n ≤ fuel →
    2 ^ log2Aux fuel n ≤ n ∧ n < 2 ^ (log2Aux fuel n + 1) := by
  intro fuel
  induction fuel with
  | zero => intro n h0 h1; omega
  | succ k ih =>
    intro n h0 h1
    unfold log2Aux
    by_cases h2 : n < 2
    · simp only [h2, if_true]
      have : n = 1 := by omega
      subst this
      simp
    · simp only [h2, if_false]
      have h3 := ih (n / 2) (by omega) (by omega)
      obtain ⟨a, b⟩ := h3
      rw [pow_succ, pow_succ]
      rw [pow_succ] at b
      constructor <;> omega

theorem ilog2_spec (n : Nat) (h : 0 < n) : 2 ^ ilog2 n ≤ n ∧ n < 2 ^ (ilog2 n + 1) :=
  log2Aux_spec n n h (le_refl n)

theorem rne_ge (n d : Nat) : n / d ≤ roundNearestEven n d := by
  unfold roundNearestEven
  simp only
  split_ifs <;> omega

theorem rne_le (n d : Nat) : roundNearestEven n d ≤ n / d + 1 := by
  unfold roundNearestEven
  simp only
  split_ifs <;> omega

theorem rne_err (n d : Nat) (hd : 0 < d) :
    2 * (roundNearestEven n d * d) ≤ 2 * n + d ∧ 2 * n ≤ 2 * (roundNearestEven n d * d) + d := by
  have h1 := Nat.div_add_mod n d
  have h2 := Nat.mod_lt n hd
  unfold roundNearestEven
  simp only
  generalize n / d = f at *
  generalize n % d = r at *
  have h3 : d * f = f * d := Nat.mul_comm _ _
  split_ifs with c1 c2
  · constructor <;> nlinarith
  · rw [Nat.add_mul]; constructor <;> nlinarith
  · have h4 : 2 * r = d := by omega
    rcases Nat.mod_two_eq_zero_or_one f with h5 | h5
    · rw [h5]; constructor <;> nlinarith
    · rw [h5, Nat.add_mul]; constructor <;> nlinarith

theorem roundBinary32_hi (B m : Nat) (hB : m ≤ B) (hL : 23 ≤ ilog2 (B / m)) :
    truncToNat (roundBinary32 B m)
      = roundNearestEven B (m * 2 ^ (ilog2 (B / m) - 23)) * 2 ^ (ilog2 (B / m) - 23) := by
  unfold roundBinary32 floorLog2 truncToNat
  simp only [hB, if_true]
  have h1 : ¬ ((ilog2 (B / m) : Int) - 23 < -149) := by omega
  simp only [h1, if_false]
  have h2 : (0 : Int) ≤ (ilog2 (B / m) : Int) - 23 := by omega
  simp only [h2, if_true]
  have h3 : ((ilog2 (B / m) : Int) - 23).toNat = ilog2 (B / m) - 23 := by omega
  rw [h3]

theorem roundBinary32_lo (B m : Nat) (hB : m ≤ B) (hL : ilog2 (B / m) < 23) :
    truncToNat (roundBinary32 B m)
      = roundNearestEven (B * 2 ^ (23 - ilog2 (B / m))) m / 2 ^ (23 - ilog2 (B / m)) := by
  unfold roundBinary32 floorLog2 truncToNat
  simp only [hB, if_true]
  have h1 : ¬ ((ilog2 (B / m) : Int) - 23 < -149) := by omega
  simp only [h1, if_false]
  have h2 : ¬ ((0 : Int) ≤ (ilog2 (B / m) : Int) - 23) := by omega
  simp only [h2, if_false]
  have h3 : (-((ilog2 (B / m) : Int) - 23)).toNat = 23 - ilog2 (B / m) := by omega
  rw [h3]

theorem div_pow_cancel (B m P : Nat) (hP : 0 < P) : B * P / m / P = B / m := by
  rw [Nat.div_div_eq_div_mul, Nat.mul_div_mul_right _ _ hP]

theorem succ_div_le (x P : Nat) (hP : 0 < P) : (x + 1) / P ≤ x / P + 1 := by
  have h : (x + 1) / P ≤ (x + P) / P := Nat.div_le_div_right (by omega)
  rw [Nat.add_div_right _ hP] at h
  exact h

/-- Below `2^24` the truncated single-precision quotient is the floor of the
exact quotient or one more. -/
theorem trunc_round_near_floor (B m : Nat) (hm : 0 < m) (hB : m ≤ B) (hlt : B < 2 ^ 24 * m) :
    truncToNat (roundBinary32 B m) = B / m ∨ truncToNat (roundBinary32 B m) = B / m + 1 := by
  have hf : 0 < B / m := Nat.div_pos hB hm
  have hs := ilog2_spec (B / m) hf
  have hf24 : B / m < 2 ^ 24 := by
    rw [Nat.div_lt_iff_lt_mul hm]; exact hlt
  have hL : ilog2 (B / m) ≤ 23 := by
    by_contra hc
    have : 2 ^ 24 ≤ 2 ^ ilog2 (B / m) := Nat.pow_le_pow_right (by norm_num) (by omega)
    omega
  by_cases h23 : ilog2 (B / m) < 23
  · rw [roundBinary32_lo B m hB h23]
    have hP : 0 < 2 ^ (23 - ilog2 (B / m)) := Nat.pow_pos (by norm_num)
    generalize 2 ^ (23 - ilog2 (B / m)) = P at *
    have h1 := rne_ge (B * P) m
    have h2 := rne_le (B * P) m
    have h3 : B * P / m / P ≤ roundNearestEven (B * P) m / P := Nat.div_le_div_right h1
    have h4 : roundNearestEven (B * P) m / P ≤ (B * P / m + 1) / P := Nat.div_le_div_right h2
    have h5 := succ_div_le (B * P / m) P hP
    rw [div_pow_cancel B m P hP] at h3 h5
    omega
  · have h6 : ilog2 (B / m) = 23 := by omega
    rw [roundBinary32_hi B m hB (by omega), h6]
    simp only [Nat.sub_self, pow_zero, Nat.mul_one]
    have h1 := rne_ge B m
    have h2 := rne_le B m
    omega

/-- From `2^23` on the truncated single-precision quotient is an integer within
half a unit in the last place, that is within `B/m / 2^24`, of the exact quotient. -/
theorem trunc_round_error_hi (B m : Nat) (hm : 0 < m) (hB : m ≤ B) (hge : 2 ^ 23 * m ≤ B) :
    truncToNat (roundBinary32 B m) * m * 2 ^ 24 ≤ B * 2 ^ 24 + B ∧
    B * 2 ^ 24 ≤ truncToNat (roundBinary32 B m) * m * 2 ^ 24 + B := by
  have hf : 0 < B / m := Nat.div_pos hB hm
  have hs := ilog2_spec (B / m) hf
  have hf23 : 2 ^ 23 ≤ B / m := by
    rw [Nat.le_div_iff_mul_le hm]; exact hge
  have hL : 23 ≤ ilog2 (B / m) := by
    by_contra hc
    have : 2 ^ (ilog2 (B / m) + 1) ≤ 2 ^ 23 := Nat.pow_le_pow_right (by norm_num) (by omega)
    omega
  rw [roundBinary32_hi B m hB hL]
  have hsplit : 2 ^ ilog2 (B / m) = 2 ^ (ilog2 (B / m) - 23) * 2 ^ 23 := by
    rw [← pow_add]; congr 1; omega
  have hE : 0 < 2 ^ (ilog2 (B / m) - 23) := Nat.pow_pos (by norm_num)
  have hfm : B / m * m ≤ B := Nat.div_mul_le_self B m
  have hd : 2 ^ ilog2 (B / m) * m ≤ B := le_trans (Nat.mul_le_mul_right m hs.1) hfm
  rw [hsplit] at hd
  generalize 2 ^ (ilog2 (B / m) - 23) = E at *
  have hr := rne_err B (m * E) (Nat.mul_pos hm hE)
  generalize roundNearestEven B (m * E) = S at *
  obtain ⟨r1, r2⟩ := hr
  constructor <;> nlinarith

/-- In every case the truncated single-precision quotient of `B / m >= 1` is
within `1 + (B/m)/2^24` of the exact quotient. -/
theorem trunc_round_error (B m : Nat) (hm : 0 < m) (hB : m ≤ B) :
    truncToNat (roundBinary32 B m) * m * 2 ^ 24 ≤ B * 2 ^ 24 + (B + m * 2 ^ 24) ∧
    B * 2 ^ 24 ≤ truncToNat (roundBinary32 B m) * m * 2 ^ 24 + (B + m * 2 ^ 24) := by
  by_cases h : 2 ^ 23 * m ≤ B
  · have := trunc_round_error_hi B m hm hB h
    omega
  · have hlt : B < 2 ^ 24 * m := by omega
    have h1 := trunc_round_near_floor B m hm hB hlt
    have h2 : B / m * m ≤ B := Nat.div_mul_le_self B m
    have h3 : B < (B / m + 1) * m := by
      have := Nat.div_add_mod B m
      have := Nat.mod_lt B hm
      nlinarith
    generalize truncToNat (roundBinary32 B m) = T at *
    rcases h1 with h1 | h1 <;> subst h1 <;> constructor <;> nlinarith

/-- For rates in `[2^-K, 10000]` the truncated quotient `N / rate` is at most
`N * 2^K * (1 + 2^-24) + 1`. -/
theorem quotTrunc_bound (N K num scale : Nat) (hN : 10000 ≤ N) (hpos : 0 < num)
    (hle : num ≤ 10000 * 2 ^ scale) (hlo : 2 ^ scale ≤ num * 2 ^ K) :
    quotTrunc N num scale * 2 ^ 24 ≤ N * 2 ^ K * (2 ^ 24 + 1) + 2 ^ 24 := by
  unfold quotTrunc
  have hS : 0 < 2 ^ scale := Nat.pow_pos (by norm_num)
  generalize 2 ^ scale = S at *
  generalize 2 ^ K = Kp at *
  have hB : num ≤ N * S := by nlinarith
  have h := (trunc_round_error (N * S) num hpos hB).1
  generalize truncToNat (roundBinary32 (N * S) num) = T at *
  have h2 : T * 2 ^ 24 * num ≤ (N * Kp * (2 ^ 24 + 1) + 2 ^ 24) * num := by
    have h3 : N * S ≤ N * (num * Kp) := Nat.mul_le_mul_left N hlo
    nlinarith
  exact Nat.le_of_mul_le_mul_right h2 hpos

/-- For an integer rate from 1 to 10000 the truncated single-precision quotient
`90000 / rate` is the integer quotient. -/
theorem quotTrunc_integer_rate (r : Nat) (h1 : 1 ≤ r) (h2 : r ≤ 10000) :
    quotTrunc 90000 r 0 = 90000 / r := by
  unfold quotTrunc
  simp only [pow_zero, Nat.mul_one]
  have hB : r ≤ 90000 := by omega
  have hf : 0 < 90000 / r := Nat.div_pos hB (by omega)
  have hs := ilog2_spec (90000 / r) hf
  have hfle : 90000 / r ≤ 90000 := Nat.div_le_self _ _
  have hL : ilog2 (90000 / r) ≤ 16 := by
    by_contra hc
    have : 2 ^ 17 ≤ 2 ^ ilog2 (90000 / r) := Nat.pow_le_pow_right (by norm_num) (by omega)
    omega
  rw [roundBinary32_lo 90000 r hB (by omega)]
  have hP7 : 2 ^ 7 ≤ 2 ^ (23 - ilog2 (90000 / r)) := Nat.pow_le_pow_right (by norm_num) (by omega)
  have hP15 : 90000 / r < 512 → 2 ^ 15 ≤ 2 ^ (23 - ilog2 (90000 / r)) := by
    intro hlt
    have hL8 : ilog2 (90000 / r) ≤ 8 := by
      by_contra hc
      have : 2 ^ 9 ≤ 2 ^ ilog2 (90000 / r) := Nat.pow_le_pow_right (by norm_num) (by omega)
      omega
    exact Nat.pow_le_pow_right (by norm_num) (by omega)
  generalize 2 ^ (23 - ilog2 (90000 / r)) = P at *
  have hP : 0 < P := by omega
  have g1 := rne_ge (90000 * P) r
  have g2 := rne_le (90000 * P) r
  have g3 := rne_err (90000 * P) r (by omega)
  have hx : 90000 * P / r / P = 90000 / r := div_pow_cancel 90000 r P hP
  have hlow : 90000 / r ≤ roundNearestEven (90000 * P) r / P := by
    rw [← hx]; exact Nat.div_le_div_right g1
  have hdm := Nat.div_add_mod 90000 r
  have hml := Nat.mod_lt 90000 (show 0 < r by omega)
  have hup : roundNearestEven (90000 * P) r < (90000 / r + 1) * P := by
    by_contra hc
    have hc2 : (90000 / r + 1) * P ≤ roundNearestEven (90000 * P) r := by omega
    have k1 : 2 * ((90000 / r + 1) * P * r) ≤ 2 * (90000 * P) + r := by
      have := Nat.mul_le_mul_right r hc2
      omega
    have k2 : (90000 / r + 1) * r = 90000 + (r - 90000 % r) := by
      rw [Nat.add_mul]; nlinarith [Nat.sub_add_cancel (le_of_lt hml)]
    have k3 : 2 * P ≤ r := by
      have k4 : (90000 / r + 1) * P * r = (90000 + (r - 90000 % r)) * P := by
        rw [← k2]; ring
      rw [k4] at k1
      have k5 : 1 ≤ r - 90000 % r := by omega
      nlinarith
    have k6 : 256 ≤ r := by omega
    have k7 : 90000 / r < 512 := by
      rw [Nat.div_lt_iff_lt_mul (by omega)]; omega
    have := hP15 k7
    omega
  have hhi : roundNearestEven (90000 * P) r / P < 90000 / r + 1 := by
    rw [Nat.div_lt_iff_lt_mul hP]; exact hup
  omega

theorem roundBinary32_pair_hi (B m : Nat) (hB : m ≤ B) (hL : 23 ≤ ilog2 (B / m)) :
    roundBinary32 B m
      = (roundNearestEven B (m * 2 ^ (ilog2 (B / m) - 23)),
          ((ilog2 (B / m) - 23 : Nat) : Int)) := by
  unfold roundBinary32 floorLog2
  simp only [hB, if_true]
  have h1 : ¬ ((ilog2 (B / m) : Int) - 23 < -149) := by omega
  simp only [h1, if_false]
  have h2 : (0 : Int) ≤ (ilog2 (B / m) : Int) - 23 := by omega
  simp only [h2, if_true]
  have h3 : ((ilog2 (B / m) : Int) - 23).toNat = ilog2 (B / m) - 23 := by omega
  have h4 : ((ilog2 (B / m) : Int) - 23) = ((ilog2 (B / m) - 23 : Nat) : Int) := by omega
  rw [h3, h4]

theorem roundBinary32_pair_lo (B m : Nat) (hB : m ≤ B) (hL : ilog2 (B / m) < 23) :
    roundBinary32 B m
      = (roundNearestEven (B * 2 ^ (23 - ilog2 (B / m))) m,
          -((23 - ilog2 (B / m) : Nat) : Int)) := by
  unfold roundBinary32 floorLog2
  simp only [hB, if_true]
  have h1 : ¬ ((ilog2 (B / m) : Int) - 23 < -149) := by omega
  simp only [h1, if_false]
  have h2 : ¬ ((0 : Int) ≤ (ilog2 (B / m) : Int) - 23) := by omega
  simp only [h2, if_false]
  have h3 : (-((ilog2 (B / m) : Int) - 23)).toNat = 23 - ilog2 (B / m) := by omega
  have h4 : ((ilog2 (B / m) : Int) - 23) = -((23 - ilog2 (B / m) : Nat) : Int) := by omega
  rw [h3, h4]

/-- Every finite `double` above `10000 + 2^-11` is stored as a `float` above 10000. -/
theorem toFloat_gt_of_gt (num scale : Nat)
    (hv : (10000 * 2 ^ 11 + 1) * 2 ^ scale < num * 2 ^ 11) :
    (F64.toFloat (F64.fin false num scale)).gtNat 10000 = true := by
  have hS : 0 < 2 ^ scale := Nat.pow_pos (by norm_num)
  unfold F64.toFloat
  generalize hSd : 2 ^ scale = S at *
  norm_num at hv
  by_cases hb : isBinary32 num scale = true
  · simp only [hb, if_true, F32.gtNat, Bool.not_false, Bool.true_and, decide_eq_true_eq, hSd]
    omega
  · simp only [hb, Bool.false_eq_true, if_false, hSd]
    have hB : S ≤ num := by omega
    have hf : 10000 ≤ num / S := by
      rw [Nat.le_div_iff_mul_le hS]; omega
    have hs := ilog2_spec (num / S) (by omega)
    have hfm : num / S * S ≤ num := Nat.div_mul_le_self num S
    have hL13 : 13 ≤ ilog2 (num / S) := by
      by_contra hc
      have : 2 ^ (ilog2 (num / S) + 1) ≤ 2 ^ 13 := Nat.pow_le_pow_right (by norm_num) (by omega)
      omega
    by_cases h23 : 23 ≤ ilog2 (num / S)
    · rw [roundBinary32_pair_hi num S hB h23]
      have hnn : (0 : Int) ≤ ((ilog2 (num / S) - 23 : Nat) : Int) := Int.ofNat_nonneg _
      simp only [hnn, if_true, Int.toNat_ofNat]
      split
      · rfl
      · simp only [F32.gtNat, Bool.not_false, Bool.true_and, decide_eq_true_eq, pow_zero,
          Nat.mul_one]
        have hsplit : 2 ^ ilog2 (num / S) = 2 ^ (ilog2 (num / S) - 23) * 2 ^ 23 := by
          rw [← pow_add]; congr 1; omega
        have hE : 0 < 2 ^ (ilog2 (num / S) - 23) := Nat.pow_pos (by norm_num)
        have hd : 2 ^ ilog2 (num / S) * S ≤ num := le_trans (Nat.mul_le_mul_right S hs.1) hfm
        rw [hsplit] at hd
        generalize 2 ^ (ilog2 (num / S) - 23) = E at *
        have hge := rne_ge num (S * E)
        have h223 : 2 ^ 23 ≤ num / (S * E) := by
          rw [Nat.le_div_iff_mul_le (Nat.mul_pos hS hE)]
          calc 2 ^ 23 * (S * E) = E * 2 ^ 23 * S := by ring
            _ ≤ num := hd
        have : 2 ^ 23 * 1 ≤ roundNearestEven num (S * E) * E :=
          Nat.mul_le_mul (le_trans h223 hge) hE
        omega
    · have hlt : ilog2 (num / S) < 23 := by omega
      rw [roundBinary32_pair_lo num S hB hlt]
      have hneg : ¬ ((0 : Int) ≤ -((23 - ilog2 (num / S) : Nat) : Int)) := by omega
      simp only [hneg, if_false, neg_neg, Int.toNat_ofNat, F32.gtNat, Bool.not_false,
        Bool.true_and, decide_eq_true_eq]
      have herr := (rne_err (num * 2 ^ (23 - ilog2 (num / S))) S hS).2
      by_cases h14 : 14 ≤ ilog2 (num / S)
      · have hf14 : 2 ^ 14 ≤ num / S :=
          le_trans (Nat.pow_le_pow_right (by norm_num) h14) hs.1
        have hP : 0 < 2 ^ (23 - ilog2 (num / S)) := Nat.pow_pos (by norm_num)
        generalize 2 ^ (23 - ilog2 (num / S)) = P at *
        generalize roundNearestEven (num * P) S = sig at *
        have hB14 : 16384 * S ≤ num := by
          have := Nat.mul_le_mul_right S hf14
          omega
        have h1 : 32768 * P * S ≤ (2 * sig + 1) * S := by nlinarith
        have h2 := Nat.le_of_mul_le_mul_right h1 hS
        omega
      · have h13 : ilog2 (num / S) = 13 := by omega
        rw [h13] at herr ⊢
        norm_num at herr ⊢
        generalize roundNearestEven (num * 1024) S = sig at *
        have h1 : 20480001 * S < (2 * sig + 1) * S := by nlinarith
        have h2 := Nat.lt_of_mul_lt_mul_right h1
        omega

theorem mem16_length (e : Endian) (v : Nat) : (mem16 e v).length = 2 := by
  cases e <;> rfl

theorem mem32_length (e : Endian) (v : Nat) : (mem32 e v).length = 4 := by
  cases e <;> rfl

theorem mem16_htons (e : Endian) (v : Nat) (h : v < 65536) :
    mem16 e (htons e v) = [v / 256, v % 256] := by
  have h1 : v / 256 % 256 = v / 256 := Nat.mod_eq_of_lt (by omega)
  cases e
  · simp only [mem16, htons, h1]
    have a0 : v % 256 < 256 := Nat.mod_lt _ (by norm_num)
    have a1 : v / 256 < 256 := by omega
    generalize v % 256 = x0 at *
    generalize v / 256 = x1 at *
    simp only [List.cons.injEq, and_true]
    constructor <;> omega
  · simp only [mem16, htons, List.cons.injEq, and_true]
    constructor <;> omega

theorem mem32_htonl (e : Endian) (v : Nat) (h : v < 4294967296) :
    mem32 e (htonl e v) = [v / 16777216, v / 65536 % 256, v / 256 % 256, v % 256] := by
  have h1 : v / 16777216 % 256 = v / 16777216 := Nat.mod_eq_of_lt (by omega)
  cases e
  · simp only [mem32, htonl, h1]
    have a0 : v % 256 < 256 := Nat.mod_lt _ (by norm_num)
    have a1 : v / 256 % 256 < 256 := Nat.mod_lt _ (by norm_num)
    have a2 : v / 65536 % 256 < 256 := Nat.mod_lt _ (by norm_num)
    have a3 : v / 16777216 < 256 := by omega
    generalize v % 256 = x0 at *
    generalize v / 256 % 256 = x1 at *
    generalize v / 65536 % 256 = x2 at *
    generalize v / 16777216 = x3 at *
    simp only [List.cons.injEq, and_true]
    refine ⟨?_, ?_, ?_, ?_⟩ <;> omega
  · simp only [mem32, htonl, List.cons.injEq, and_true]
    have h2 : v % 4294967296 = v := Nat.mod_eq_of_lt h
    rw [h2]
    refine ⟨?_, ?_, ?_, ?_⟩ <;> omega

theorem memcpy_append (pre rest src : List Nat) (off : Nat) (h : off = pre.length) :
    memcpy (pre ++ rest) off src = (pre ++ src) ++ rest.drop src.length := by
  subst h
  unfold memcpy
  rw [List.take_left, List.drop_append, List.append_assoc]

theorem memcpy_length (buff src : List Nat) (off : Nat) (h : off + src.length ≤ buff.length) :
    (memcpy buff off src).length = buff.length := by
  unfold memcpy
  simp only [List.length_append, List.length_take, List.length_drop]
  omega

theorem makePacket_eq (e : Endian) (st : State) (buff : List Nat) :
    makePacket e st buff =
      mem16 e st.networkRtpHeader ++ mem16 e st.networkSequenceNumber
        ++ mem32 e st.networkRtpTimestamp ++ mem32 e st.ssrc
        ++ mem32 e st.networkMpegVideoHeader ++ st.payload.take st.payloadLength.toNat
        ++ buff.drop (16 + (st.payload.take st.payloadLength.toNat).length) := by
  unfold makePacket
  simp only
  have h0 : buff = [] ++ buff := rfl
  rw [h0, memcpy_append [] buff _ 0 rfl]
  rw [memcpy_append _ _ _ 2 (by simp [mem16_length])]
  rw [memcpy_append _ _ _ 4 (by simp [mem16_length])]
  rw [memcpy_append _ _ _ 8 (by simp [mem16_length, mem32_length])]
  rw [memcpy_append _ _ _ 12 (by simp [mem16_length, mem32_length])]
  rw [memcpy_append _ _ _ 16 (by simp [mem16_length, mem32_length])]
  simp only [List.nil_append, List.drop_drop, mem16_length, mem32_length]

theorem makePacket_length (e : Endian) (st : State) (buff : List Nat)
    (hbuf : buff.length = 1500) (hpay : st.payload.length = 1484) :
    (makePacket e st buff).length = 1500 := by
  rw [makePacket_eq]
  simp only [List.length_append, mem16_length, mem32_length, List.length_take, List.length_drop]
  omega

theorem datagram_eq (e : Endian) (st : State) (buff : List Nat) (ok : Bool)
    (hpay : st.payload.length = 1484) (h0 : 0 ≤ st.payloadLength)
    (h1 : st.payloadLength ≤ 1484) :
    (udpSendPacket st (makePacket e st buff) ok).1 =
      mem16 e st.networkRtpHeader ++ mem16 e st.networkSequenceNumber
        ++ mem32 e st.networkRtpTimestamp ++ mem32 e st.ssrc
        ++ mem32 e st.networkMpegVideoHeader ++ st.payload.take st.payloadLength.toNat := by
  unfold udpSendPacket sendLength
  simp only
  rw [makePacket_eq]
  apply List.take_left'
  simp only [List.length_append, mem16_length, mem32_length, List.length_take]
  omega

theorem header_const (e : Endian) : mem16 e (htons e RtpHeader) = [128, 32] := by
  cases e <;> rfl

theorem mpeg_const (e : Endian) : mem32 e (htonl e mpegVideoHeader) = [0, 0, 0, 0] := by
  cases e <;> rfl

theorem loopIteration_eq (e : Endian) (st : State) (env : IterEnv) (step : Nat)
    (req : Timespec)
    (h1 : toUInt32 (F32.natDivTrunc 90000 st.sendRate) = some step)
    (h2 : sleepInterval st.sendRate = some req) :
    loopIteration e st env =
      some
        ({ st with
            rtpTime := (st.rtpTime + step) % 4294967296
            networkRtpTimestamp := htonl e ((st.rtpTime + step) % 4294967296)
            sequenceNumber := (st.sequenceNumber + 1) % 65536
            networkSequenceNumber := htons e ((st.sequenceNumber + 1) % 65536)
            packetBuffer :=
              makePacket e
                { st with
                  rtpTime := (st.rtpTime + step) % 4294967296
                  networkRtpTimestamp := htonl e ((st.rtpTime + step) % 4294967296)
                  sequenceNumber := (st.sequenceNumber + 1) % 65536
                  networkSequenceNumber := htons e ((st.sequenceNumber + 1) % 65536) }
                st.packetBuffer
            to_sleep := (waitLoop req env.sleeps).1 },
         { datagram :=
             (makePacket e
                { st with
                  rtpTime := (st.rtpTime + step) % 4294967296
                  networkRtpTimestamp := htonl e ((st.rtpTime + step) % 4294967296)
                  sequenceNumber := (st.sequenceNumber + 1) % 65536
                  networkSequenceNumber := htons e ((st.sequenceNumber + 1) % 65536) }
                st.packetBuffer).take (sendLength st).toNat
           sendResult := if env.sendtoOk then 1 else -1
           output :=
             if st.DEBUG ≠ 0 then
               debugDump
                 (makePacket e
                    { st with
                      rtpTime := (st.rtpTime + step) % 4294967296
                      networkRtpTimestamp := htonl e ((st.rtpTime + step) % 4294967296)
                      sequenceNumber := (st.sequenceNumber + 1) % 65536
                      networkSequenceNumber := htons e ((st.sequenceNumber + 1) % 65536) }
                    st.packetBuffer)
             else []
           sleepCalls := (waitLoop req env.sleeps).2 }) := by
  unfold loopIteration getRtpTimestamp
  simp only [h1, h2, udpSendPacket, sendLength, List.nil_append]

theorem loopIteration_spec (e : Endian) (st : State) (env : IterEnv) (step : Nat)
    (req : Timespec)
    (h1 : toUInt32 (F32.natDivTrunc 90000 st.sendRate) = some step)
    (h2 : sleepInterval st.sendRate = some req) (hwf : st.wf e) :
    ∃ st1 r, loopIteration e st env = some (st1, r) ∧ st1.wf e ∧
      st1.sendRate = st.sendRate ∧ st1.payload = st.payload ∧
      st1.payloadLength = st.payloadLength ∧ st1.ssrc = st.ssrc ∧ st1.DEBUG = st.DEBUG ∧
      st1.sequenceNumber = (st.sequenceNumber + 1) % 65536 ∧
      st1.rtpTime = (st.rtpTime + step) % 4294967296 ∧
      r.datagram =
        [128, 32, (st.sequenceNumber + 1) % 65536 / 256, (st.sequenceNumber + 1) % 65536 % 256,
          (st.rtpTime + step) % 4294967296 / 16777216,
          (st.rtpTime + step) % 4294967296 / 65536 % 256,
          (st.rtpTime + step) % 4294967296 / 256 % 256,
          (st.rtpTime + step) % 4294967296 % 256]
          ++ mem32 e st.ssrc ++ [0, 0, 0, 0] ++ st.payload.take st.payloadLength.toNat ∧
      r.sendResult = (if env.sendtoOk then 1 else -1) ∧
      (st.DEBUG = 0 → r.output = []) ∧
      r.sleepCalls = (waitLoop req env.sleeps).2 := by
  obtain ⟨w1, w2, w3, w4, w5, w6, w7, w8, w9⟩ := hwf
  refine ⟨_, _, loopIteration_eq e st env step req h1 h2, ?_, rfl, rfl, rfl, rfl, rfl, rfl, rfl,
    ?_, rfl, ?_, rfl⟩
  · refine ⟨?_, w2, w3, w4, w5, w6, w7, ?_, ?_⟩
    · exact makePacket_length e _ _ w1 w2
    · exact Nat.mod_lt _ (by norm_num)
    · exact Nat.mod_lt _ (by norm_num)
  · simp only
    rw [makePacket_eq]
    simp only [w5, w6, header_const, mpeg_const]
    rw [mem16_htons e _ (Nat.mod_lt _ (by norm_num)),
      mem32_htonl e _ (Nat.mod_lt _ (by norm_num))]
    have hlen : (sendLength st).toNat =
        ([128, 32] ++ [(st.sequenceNumber + 1) % 65536 / 256,
            (st.sequenceNumber + 1) % 65536 % 256] ++
          [(st.rtpTime + step) % 4294967296 / 16777216,
            (st.rtpTime + step) % 4294967296 / 65536 % 256,
            (st.rtpTime + step) % 4294967296 / 256 % 256,
            (st.rtpTime + step) % 4294967296 % 256] ++ mem32 e st.ssrc ++ [0, 0, 0, 0] ++
          List.take st.payloadLength.toNat st.payload).length := by
      simp only [List.length_append, mem32_length, List.length_take, List.length_cons,
        List.length_nil, sendLength]
      omega
    rw [hlen, List.take_left]
    simp
  · intro h
    simp [h]

theorem runLoop_spec (e : Endian) (step : Nat) (req : Timespec) :
    ∀ (envs : List IterEnv) (st : State),
      toUInt32 (F32.natDivTrunc 90000 st.sendRate) = some step →
      sleepInterval st.sendRate = some req → st.wf e →
      ∃ st1 recs, runLoop e st envs = some (st1, recs) ∧ recs.length = envs.length ∧
        st1.wf e ∧ st1.sendRate = st.sendRate ∧ st1.payload = st.payload ∧
        st1.payloadLength = st.payloadLength ∧ st1.ssrc = st.ssrc ∧ st1.DEBUG = st.DEBUG ∧
        st1.sequenceNumber = (st.sequenceNumber + envs.length) % 65536 ∧
        st1.rtpTime = (st.rtpTime + envs.length * step) % 4294967296 ∧
        ∀ (k : Nat) (env : IterEnv) (r : IterRecord),
          envs[k]? = some env → recs[k]? = some r →
          r.datagram =
            [128, 32, (st.sequenceNumber + (k + 1)) % 65536 / 256,
              (st.sequenceNumber + (k + 1)) % 65536 % 256,
              (st.rtpTime + (k + 1) * step) % 4294967296 / 16777216,
              (st.rtpTime + (k + 1) * step) % 4294967296 / 65536 % 256,
              (st.rtpTime + (k + 1) * step) % 4294967296 / 256 % 256,
              (st.rtpTime + (k + 1) * step) % 4294967296 % 256]
              ++ mem32 e st.ssrc ++ [0, 0, 0, 0] ++ st.payload.take st.payloadLength.toNat ∧
          r.sendResult = (if env.sendtoOk then 1 else -1) ∧
          (st.DEBUG = 0 → r.output = []) ∧
          r.sleepCalls = (waitLoop req env.sleeps).2 := by
  intro envs
  induction envs with
  | nil =>
    intro st _ _ hwf
    refine ⟨st, [], rfl, rfl, hwf, rfl, rfl, rfl, rfl, rfl, ?_, ?_, ?_⟩
    · have := hwf.2.2.2.2.2.2.2.1
      simp only [List.length_nil, Nat.add_zero]
      omega
    · have := hwf.2.2.2.2.2.2.2.2
      simp only [List.length_nil, Nat.zero_mul, Nat.add_zero]
      omega
    · intro k env r hk
      simp at hk
  | cons env rest ih =>
    intro st h1 h2 hwf
    obtain ⟨sa, ra, ha, hwa, a1, a2, a3, a4, a5, a6, a7, a8, a9, a10, a11⟩ :=
      loopIteration_spec e st env step req h1 h2 hwf
    obtain ⟨sb, rb, hb, hlen, hwb, b1, b2, b3, b4, b5, b6, b7, b8⟩ :=
      ih sa (by rw [a1]; exact h1) (by rw [a1]; exact h2) hwa
    refine ⟨sb, ra :: rb, ?_, ?_, hwb, ?_, ?_, ?_, ?_, ?_, ?_, ?_, ?_⟩
    · simp only [runLoop, ha, hb]
    · simp [hlen]
    · rw [b1, a1]
    · rw [b2, a2]
    · rw [b3, a3]
    · rw [b4, a4]
    · rw [b5, a5]
    · rw [b6, a6]
      simp only [List.length_cons]
      omega
    · rw [b7, a7]
      simp only [List.length_cons]
      have : (rest.length + 1) * step = rest.length * step + step := by ring
      rw [this]
      omega
    · intro k env1 r hk hr
      cases k with
      | zero =>
        simp only [List.getElem?_cons_zero, Option.some.injEq] at hk hr
        subst hk
        subst hr
        simp only [Nat.zero_add, Nat.one_mul]
        exact ⟨a8, a9, a10, a11⟩
      | succ j =>
        simp only [List.getElem?_cons_succ] at hk hr
        obtain ⟨c1, c2, c3, c4⟩ := b8 j env1 r hk hr
        have hsq : (sa.sequenceNumber + (j + 1)) % 65536
            = (st.sequenceNumber + (j + 1 + 1)) % 65536 := by
          rw [a6]; omega
        have hts : (sa.rtpTime + (j + 1) * step) % 4294967296
            = (st.rtpTime + (j + 1 + 1) * step) % 4294967296 := by
          rw [a7]
          have : (j + 1 + 1) * step = (j + 1) * step + step := by ring
          rw [this]
          omega
        rw [hsq, hts, a4, a2, a3] at c1
        rw [a5] at c3
        exact ⟨c1, c2, c3, c4⟩

theorem processOptions_append (st : State) (a b : List Opt) :
    processOptions st (a ++ b) =
      match processOptions st a with
      | Except.error status => Except.error status
      | Except.ok st1 => processOptions st1 b := by
  induction a generalizing st with
  | nil => rfl
  | cons o rest ih =>
    simp only [List.cons_append, processOptions]
    cases h : processOption st o with
    | error s => rfl
    | ok st1 => exact ih st1

theorem defaults_wf (e : Endian) (randValue : Nat) : (defaults e randValue).wf e := by
  refine ⟨?_, ?_, ?_, ?_, rfl, rfl, ?_, ?_, ?_⟩
  · show (List.replicate 1500 0).length = 1500
    exact List.length_replicate _ _
  · show (memcpy (List.replicate 1484 0) 0 testMessage).length = 1484
    rw [memcpy_length]
    · exact List.length_replicate _ _
    · rw [List.length_replicate]; decide
  · show (0 : Int) ≤ 13
    decide
  · show (13 : Int) ≤ 1484
    decide
  · exact Nat.mod_lt _ (by norm_num)
  · show 0 < 65536
    decide
  · show 0 < 4294967296
    decide

theorem processOption_wf (e : Endian) (st st1 : State) (o : Opt) (hwf : st.wf e)
    (h : processOption st o = Except.ok st1) : st1.wf e := by
  obtain ⟨w1, w2, w3, w4, w5, w6, w7, w8, w9⟩ := hwf
  cases o with
  | address optarg =>
    simp only [processOption, Except.ok.injEq] at h
    subst h
    exact ⟨w1, w2, w3, w4, w5, w6, w7, w8, w9⟩
  | port value =>
    simp only [processOption, Except.ok.injEq] at h
    subst h
    exact ⟨w1, w2, w3, w4, w5, w6, w7, w8, w9⟩
  | rate value =>
    simp only [processOption] at h
    split at h
    · cases h
    · simp only [Except.ok.injEq] at h
      subst h
      exact ⟨w1, w2, w3, w4, w5, w6, w7, w8, w9⟩
  | payload file =>
    cases file with
    | openFails => simp [processOption] at h
    | readFails => simp [processOption] at h
    | contents bytes =>
      simp only [processOption, Except.ok.injEq] at h
      subst h
      refine ⟨w1, ?_, ?_, ?_, w5, w6, w7, w8, w9⟩
      · simp only [memcpy, List.take_zero, List.nil_append, List.length_append,
          List.length_take, List.length_drop, Nat.zero_add]
        omega
      · simp
      · simp only [List.length_take]
        omega
  | help => simp [processOption] at h
  | version => simp [processOption] at h
  | unknown => simp [processOption] at h

theorem processOptions_wf (e : Endian) (opts : List Opt) :
    ∀ st st1 : State, st.wf e → processOptions st opts = Except.ok st1 → st1.wf e := by
  induction opts with
  | nil =>
    intro st st1 hwf h
    simp only [processOptions, Except.ok.injEq] at h
    subst h
    exact hwf
  | cons o rest ih =>
    intro st st1 hwf h
    simp only [processOptions] at h
    cases ho : processOption st o with
    | error s => rw [ho] at h; cases h
    | ok st2 =>
      rw [ho] at h
      exact ih st2 st1 (processOption_wf e st st2 o hwf ho) h

theorem main_streaming (e : Endian) (randValue : Nat) (opts : List Opt) (socketOk : Bool)
    (st : State) (h : main e randValue opts socketOk = Startup.streaming st) :
    processOptions (defaults e randValue) opts = Except.ok st := by
  unfold main at h
  cases hp : processOptions (defaults e randValue) opts with
  | error s => rw [hp] at h; cases h
  | ok st1 =>
    rw [hp] at h
    simp only at h
    split at h
    · cases h; rfl
    · cases h

theorem main_streaming_wf (e : Endian) (randValue : Nat) (opts : List Opt) (socketOk : Bool)
    (st : State) (h : main e randValue opts socketOk = Startup.streaming st) : st.wf e :=
  processOptions_wf e opts _ st (defaults_wf e randValue)
    (main_streaming e randValue opts socketOk st h)

/-- C1: for every sequence number, timestamp, SSRC and payload of at most 1484
bytes, on a little-endian and on a big-endian host, the datagram that
`udpSendPacket` hands to `sendto` after `makePacket` (with the header fields
converted by `htons`/`htonl` as `main` does) is `0x80 0x20`, the sequence number
big-endian, the timestamp big-endian, the SSRC in host memory order, four zero
bytes, then the payload bytes in order; the packet buffer keeps its 1500 bytes. -/
theorem C1_datagram_layout (e : Endian) (st : State) (buff : List Nat) (seq ts ssrc : Nat)
    (p fill : List Nat) (sendtoOk : Bool)
    (hseq : seq < 65536) (hts : ts < 4294967296) (hssrc : ssrc < 4294967296)
    (hp : p.length + fill.length = 1484) (hbuf : buff.length = 1500) :
    (udpSendPacket
        { st with
          networkRtpHeader := htons e RtpHeader
          networkMpegVideoHeader := htonl e mpegVideoHeader
          networkSequenceNumber := htons e seq
          networkRtpTimestamp := htonl e ts
          ssrc := ssrc
          payload := p ++ fill
          payloadLength := (p.length : Int) }
        (makePacket e
          { st with
            networkRtpHeader := htons e RtpHeader
            networkMpegVideoHeader := htonl e mpegVideoHeader
            networkSequenceNumber := htons e seq
            networkRtpTimestamp := htonl e ts
            ssrc := ssrc
            payload := p ++ fill
            payloadLength := (p.length : Int) }
          buff) sendtoOk).1
      = [0x80, 0x20, seq / 256, seq % 256,
          ts / 16777216, ts / 65536 % 256, ts / 256 % 256, ts % 256]
        ++ (match e with
            | Endian.little =>
                [ssrc % 256, ssrc / 256 % 256, ssrc / 65536 % 256, ssrc / 16777216]
            | Endian.big =>
                [ssrc / 16777216, ssrc / 65536 % 256, ssrc / 256 % 256, ssrc % 256])
        ++ [0, 0, 0, 0] ++ p
    ∧ (makePacket e
          { st with
            networkRtpHeader := htons e RtpHeader
            networkMpegVideoHeader := htonl e mpegVideoHeader
            networkSequenceNumber := htons e seq
            networkRtpTimestamp := htonl e ts
            ssrc := ssrc
            payload := p ++ fill
            payloadLength := (p.length : Int) }
          buff).length = 1500 := by
  constructor
  · rw [datagram_eq e _ buff sendtoOk (by simp only [List.length_append]; exact hp)
      (by simp) (by simp only; omega)]
    simp only [header_const, mpeg_const, mem16_htons e seq hseq, mem32_htonl e ts hts,
      Int.toNat_ofNat, List.take_left]
    have h3 : ssrc / 16777216 % 256 = ssrc / 16777216 := Nat.mod_eq_of_lt (by omega)
    cases e <;> simp [mem32, h3]
  · exact makePacket_length e _ buff hbuf (by simp only [List.length_append]; exact hp)

/-- Witness for C1: sequence number 258, timestamp 3000, SSRC 0x01020304 and the
three payload bytes 7, 8, 9 on a little-endian host. -/
theorem C1_datagram_layout_witness :
    (258 < 65536 ∧ 3000 < 4294967296 ∧ 16909060 < 4294967296 ∧
      [7, 8, 9].length + (List.replicate 1481 0).length = 1484 ∧
      (List.replicate 1500 0).length = 1500) ∧
    (udpSendPacket
        { initialState with
          networkRtpHeader := htons Endian.little RtpHeader
          networkMpegVideoHeader := htonl Endian.little mpegVideoHeader
          networkSequenceNumber := htons Endian.little 258
          networkRtpTimestamp := htonl Endian.little 3000
          ssrc := 16909060
          payload := [7, 8, 9] ++ List.replicate 1481 0
          payloadLength := (([7, 8, 9] : List Nat).length : Int) }
        (makePacket Endian.little
          { initialState with
            networkRtpHeader := htons Endian.little RtpHeader
            networkMpegVideoHeader := htonl Endian.little mpegVideoHeader
            networkSequenceNumber := htons Endian.little 258
            networkRtpTimestamp := htonl Endian.little 3000
            ssrc := 16909060
            payload := [7, 8, 9] ++ List.replicate 1481 0
            payloadLength := (([7, 8, 9] : List Nat).length : Int) }
          (List.replicate 1500 0)) true).1
      = [0x80, 0x20, 258 / 256, 258 % 256,
          3000 / 16777216, 3000 / 65536 % 256, 3000 / 256 % 256, 3000 % 256]
        ++ [16909060 % 256, 16909060 / 256 % 256, 16909060 / 65536 % 256, 16909060 / 16777216]
        ++ [0, 0, 0, 0] ++ [7, 8, 9] :=
  ⟨⟨by decide, by decide, by decide, by rw [List.length_replicate]; rfl,
      List.length_replicate _ _⟩,
    (C1_datagram_layout Endian.little initialState (List.replicate 1500 0) 258 3000 16909060
      [7, 8, 9] (List.replicate 1481 0) true (by decide) (by decide) (by decide)
      (by rw [List.length_replicate]; rfl) (List.length_replicate _ _)).1⟩

theorem rateUsable_some (rate : F32) (h : rateUsable rate = true) :
    ∃ step req, toUInt32 (F32.natDivTrunc 90000 rate) = some step ∧
      sleepInterval rate = some req := by
  unfold rateUsable at h
  rw [Bool.and_eq_true] at h
  obtain ⟨a, ha⟩ := Option.isSome_iff_exists.mp h.1
  obtain ⟨b, hb⟩ := Option.isSome_iff_exists.mp h.2
  exact ⟨a, b, ha, hb⟩

theorem getElem?_of_length_eq {α β : Type} (xs : List α) (ys : List β) (k : Nat) (y : β)
    (hlen : ys.length = xs.length) (h : ys[k]? = some y) : ∃ x, xs[k]? = some x := by
  have hk : k < ys.length := by
    by_contra hc
    rw [List.getElem?_eq_none (by omega)] at h
    cases h
  exact ⟨xs[k], List.getElem?_eq_getElem (by omega)⟩

/-- C2: from any state of the loop with sequence counter `s`, the loop adds
one to the 16-bit counter before each send, so that datagram number `k+1`
carries `(s + (k+1)) mod 65536` big-endian in bytes 2-3, and after exactly
65536 iterations the counter is `s` again. -/
theorem C2_sequence_numbers (e : Endian) (st : State) (envs : List IterEnv)
    (hwf : st.wf e) (hrate : rateUsable st.sendRate = true) :
    ∃ st1 recs, runLoop e st envs = some (st1, recs) ∧ recs.length = envs.length ∧
      (∀ (k : Nat) (r : IterRecord), recs[k]? = some r →
        (r.datagram.drop 2).take 2 =
          [(st.sequenceNumber + (k + 1)) % 65536 / 256,
            (st.sequenceNumber + (k + 1)) % 65536 % 256]) ∧
      st1.sequenceNumber = (st.sequenceNumber + envs.length) % 65536 ∧
      (envs.length = 65536 → st1.sequenceNumber = st.sequenceNumber) := by
  obtain ⟨step, req, h1, h2⟩ := rateUsable_some _ hrate
  obtain ⟨st1, recs, hr, hlen, _, _, _, _, _, _, hseq, _, hrec⟩ :=
    runLoop_spec e step req envs st h1 h2 hwf
  refine ⟨st1, recs, hr, hlen, ?_, hseq, ?_⟩
  · intro k r hk
    obtain ⟨env, henv⟩ := getElem?_of_length_eq envs recs k r hlen hk
    rw [(hrec k env r henv hk).1]
    rfl
  · intro h65
    rw [hseq, h65]
    have := hwf.2.2.2.2.2.2.2.1
    omega

/-- Witness for C2: the start state of the default configuration and two
iterations. -/
theorem C2_sequence_numbers_witness :
    (defaults Endian.little 0).wf Endian.little ∧
    rateUsable (defaults Endian.little 0).sendRate = true ∧
    ∃ st1 recs,
      runLoop Endian.little (defaults Endian.little 0) [⟨true, []⟩, ⟨false, []⟩]
        = some (st1, recs) ∧
      recs.length = [(⟨true, []⟩ : IterEnv), ⟨false, []⟩].length ∧
      (∀ (k : Nat) (r : IterRecord), recs[k]? = some r →
        (r.datagram.drop 2).take 2 =
          [((defaults Endian.little 0).sequenceNumber + (k + 1)) % 65536 / 256,
            ((defaults Endian.little 0).sequenceNumber + (k + 1)) % 65536 % 256]) ∧
      st1.sequenceNumber
        = ((defaults Endian.little 0).sequenceNumber
            + [(⟨true, []⟩ : IterEnv), ⟨false, []⟩].length) % 65536 ∧
      ([(⟨true, []⟩ : IterEnv), ⟨false, []⟩].length = 65536 →
        st1.sequenceNumber = (defaults Endian.little 0).sequenceNumber) :=
  ⟨defaults_wf Endian.little 0, by decide,
    C2_sequence_numbers Endian.little (defaults Endian.little 0) [⟨true, []⟩, ⟨false, []⟩]
      (defaults_wf Endian.little 0) (by decide)⟩

/-- C9 as stated fails: in the start state of the default configuration an
iteration whose `sendto` fails yields return value -1 from `udpSendPacket`
and writes nothing at all, so no diagnostic for the failed send is recorded. -/
theorem C9_counterexample :
    ∃ st1 r, loopIteration Endian.little (defaults Endian.little 0) ⟨false, []⟩
        = some (st1, r) ∧
      r.sendResult = -1 ∧ r.output = [] :=
  ⟨_, _, loopIteration_eq Endian.little (defaults Endian.little 0) ⟨false, []⟩ 90000 ⟨1, 0⟩
      (by decide) (by decide), rfl, rfl⟩

/-- C9, amended: when a send fails (`udpSendPacket` returns -1) the failure is
non-fatal and leaves no trace: the iteration prints exactly what it prints
after a successful send (nothing when `DEBUG` is 0), it ends in the same state
as after a successful send, with the sequence number advanced by one and the
timestamp advanced by the same step, and the loop goes on to the following
iterations exactly as after a success. -/
theorem C9_failed_send_ignored (e : Endian) (st : State) (sleeps : List SleepEvent)
    (hrate : rateUsable st.sendRate = true) :
    ∃ st1 rFail rOk,
      loopIteration e st ⟨false, sleeps⟩ = some (st1, rFail) ∧
      loopIteration e st ⟨true, sleeps⟩ = some (st1, rOk) ∧
      rFail.sendResult = -1 ∧ rOk.sendResult = 1 ∧
      rFail.output = rOk.output ∧ (st.DEBUG = 0 → rFail.output = []) ∧
      rFail.datagram = rOk.datagram ∧
      st1.sequenceNumber = (st.sequenceNumber + 1) % 65536 ∧
      (∃ step, toUInt32 (F32.natDivTrunc 90000 st.sendRate) = some step ∧
        st1.rtpTime = (st.rtpTime + step) % 4294967296) ∧
      (∀ rest : List IterEnv,
        (runLoop e st (⟨false, sleeps⟩ :: rest)).map (fun x => x.1)
          = (runLoop e st1 rest).map (fun x => x.1)) := by
  obtain ⟨step, req, h1, h2⟩ := rateUsable_some _ hrate
  refine ⟨_, _, _, loopIteration_eq e st ⟨false, sleeps⟩ step req h1 h2,
    loopIteration_eq e st ⟨true, sleeps⟩ step req h1 h2, rfl, rfl, rfl, ?_, rfl, rfl,
    ⟨step, h1, rfl⟩, ?_⟩
  · intro h
    simp [h]
  · intro rest
    simp only [runLoop, loopIteration_eq e st ⟨false, sleeps⟩ step req h1 h2]
    cases runLoop e _ rest with
    | none => rfl
    | some x => rfl

/-- Witness for C9: the start state of the default configuration. -/
theorem C9_failed_send_ignored_witness :
    rateUsable (defaults Endian.little 0).sendRate = true ∧
    ∃ st1 rFail rOk,
      loopIteration Endian.little (defaults Endian.little 0) ⟨false, []⟩ = some (st1, rFail) ∧
      loopIteration Endian.little (defaults Endian.little 0) ⟨true, []⟩ = some (st1, rOk) ∧
      rFail.sendResult = -1 ∧ rOk.sendResult = 1 ∧
      rFail.output = rOk.output ∧ ((defaults Endian.little 0).DEBUG = 0 → rFail.output = []) ∧
      rFail.datagram = rOk.datagram ∧
      st1.sequenceNumber = ((defaults Endian.little 0).sequenceNumber + 1) % 65536 ∧
      (∃ step, toUInt32 (F32.natDivTrunc 90000 (defaults Endian.little 0).sendRate)
          = some step ∧
        st1.rtpTime = ((defaults Endian.little 0).rtpTime + step) % 4294967296) ∧
      (∀ rest : List IterEnv,
        (runLoop Endian.little (defaults Endian.little 0) (⟨false, []⟩ :: rest)).map
            (fun x => x.1)
          = (runLoop Endian.little st1 rest).map (fun x => x.1)) :=
  ⟨by decide, C9_failed_send_ignored Endian.little (defaults Endian.little 0) [] (by decide)⟩

/-- C10 fails on the code: with `-r 0` the test `sendRate > 10000` is false, so
`main` reaches the loop with `sendRate = 0`; there `90000/rate` and
`1000000000 / sendRate` divide by zero and neither conversion of the infinite
quotient to an integer is defined. The same happens with a negative rate such
as `-r -5`, which also reaches the loop. -/
theorem C10_zero_rate_reaches_loop :
    (∃ st, main Endian.little 0 [Opt.rate (F64.fin false 0 0)] true = Startup.streaming st ∧
      st.sendRate = F32.fin false 0 0 ∧
      F32.natDivTrunc 90000 st.sendRate = none ∧
      getRtpTimestamp st.sendRate st.rtpTime = none ∧
      sleepInterval st.sendRate = none ∧
      ∀ env, loopIteration Endian.little st env = none) ∧
    (∃ st, main Endian.little 0 [Opt.rate (F64.fin true 5 0)] true = Startup.streaming st ∧
      st.sendRate = F32.fin true 5 0) :=
  ⟨⟨_, rfl, rfl, rfl, rfl, rfl, fun _ => rfl⟩, ⟨_, rfl, rfl⟩⟩

theorem processOptions_rate_exit (st : State) (v : F64) (post : List Opt)
    (hv : (F64.toFloat v).gtNat 10000 = true) :
    processOptions st (Opt.rate v :: post) = Except.error 0 := by
  simp [processOptions, processOption, hv]

theorem processOption_error_status (st : State) (o : Opt) (s : Int)
    (h : processOption st o = Except.error s) :
    s = 0 ∨ (s = 1 ∧ (o = Opt.payload PayloadFile.openFails ∨
      o = Opt.payload PayloadFile.readFails)) := by
  cases o with
  | address optarg => simp [processOption] at h
  | port value => simp [processOption] at h
  | rate value =>
    cases hg : (F64.toFloat value).gtNat 10000 with
    | true =>
      simp only [processOption, hg, if_true, Except.error.injEq] at h
      exact Or.inl h.symm
    | false => simp [processOption, hg] at h
  | payload file =>
    cases file with
    | openFails =>
      simp only [processOption, Except.error.injEq] at h
      exact Or.inr ⟨h.symm, Or.inl rfl⟩
    | readFails =>
      simp only [processOption, Except.error.injEq] at h
      exact Or.inr ⟨h.symm, Or.inr rfl⟩
    | contents bytes => simp [processOption] at h
  | help =>
    simp only [processOption, Except.error.injEq] at h
    exact Or.inl h.symm
  | version =>
    simp only [processOption, Except.error.injEq] at h
    exact Or.inl h.symm
  | unknown =>
    simp only [processOption, Except.error.injEq] at h
    exact Or.inl h.symm

theorem processOptions_error_status (opts : List Opt) :
    ∀ (st : State) (s : Int), processOptions st opts = Except.error s →
      s = 0 ∨ (s = 1 ∧ ∃ o ∈ opts, o = Opt.payload PayloadFile.openFails ∨
        o = Opt.payload PayloadFile.readFails) := by
  induction opts with
  | nil =>
    intro st s h
    simp [processOptions] at h
  | cons o rest ih =>
    intro st s h
    simp only [processOptions] at h
    cases ho : processOption st o with
    | error s1 =>
      rw [ho] at h
      simp only [Except.error.injEq] at h
      subst h
      rcases processOption_error_status st o s1 ho with h0 | ⟨h1, h2⟩
      · exact Or.inl h0
      · exact Or.inr ⟨h1, o, List.mem_cons_self _ _, h2⟩
    | ok st1 =>
      rw [ho] at h
      rcases ih st1 s h with h0 | ⟨h1, o1, hmem, h2⟩
      · exact Or.inl h0
      · exact Or.inr ⟨h1, o1, List.mem_cons_of_mem _ hmem, h2⟩

theorem processOptions_noPayload (opts : List Opt) :
    ∀ st st1 : State, (∀ o ∈ opts, ∀ f, o ≠ Opt.payload f) →
      processOptions st opts = Except.ok st1 →
      st1.payload = st.payload ∧ st1.payloadLength = st.payloadLength := by
  induction opts with
  | nil =>
    intro st st1 _ h
    simp only [processOptions, Except.ok.injEq] at h
    subst h
    exact ⟨rfl, rfl⟩
  | cons o rest ih =>
    intro st st1 hno h
    simp only [processOptions] at h
    have hrest : ∀ o ∈ rest, ∀ f, o ≠ Opt.payload f :=
      fun o1 ho1 => hno o1 (List.mem_cons_of_mem _ ho1)
    have ho := hno o (List.mem_cons_self _ _)
    cases o with
    | address optarg =>
      simp only [processOption] at h
      have hh := ih _ st1 hrest h
      exact hh
    | port value =>
      simp only [processOption] at h
      have hh := ih _ st1 hrest h
      exact hh
    | rate value =>
      cases hg : (F64.toFloat value).gtNat 10000 with
      | true => simp [processOption, hg] at h
      | false =>
        simp only [processOption, hg] at h
        have hh := ih _ st1 hrest h
        exact hh
    | payload file => exact absurd rfl (ho file)
    | help => simp [processOption] at h
    | version => simp [processOption] at h
    | unknown => simp [processOption] at h

theorem runLoop_cons_usable (e : Endian) (st : State) (env : IterEnv) (rest : List IterEnv)
    (x : State × List IterRecord) (h : runLoop e st (env :: rest) = some x) :
    rateUsable st.sendRate = true := by
  unfold runLoop at h
  cases hl : loopIteration e st env with
  | none => rw [hl] at h; cases h
  | some y =>
    unfold loopIteration getRtpTimestamp at hl
    unfold rateUsable
    cases h1 : toUInt32 (F32.natDivTrunc 90000 st.sendRate) with
    | none => rw [h1] at hl; cases hl
    | some step =>
      rw [h1] at hl
      simp only at hl
      cases h2 : sleepInterval st.sendRate with
      | none => rw [h2] at hl; cases hl
      | some req => rfl

/-- C7 as stated fails. The rate 10000.000244140625 = 40960001 / 2^12 is a
`double` greater than 10000, but the assignment to the `float` `sendRate`
rounds it to 10000.0, the test `sendRate > 10000` is false, and `main` reaches
the loop, which sends a packet. And with `-c missing -r 20000` the failing
`-c` option ends the process with exit status 1 before `-r` is looked at. -/
theorem C7_counterexample :
    (F64.valid (F64.fin false 40960001 12) = true ∧ 10000 * 2 ^ 12 < 40960001 ∧
      ∃ st recs,
        main Endian.little 0 [Opt.rate (F64.fin false 40960001 12)] true
          = Startup.streaming st ∧
        st.sendRate = F32.fin false 10240000 10 ∧
        run Endian.little 0 [Opt.rate (F64.fin false 40960001 12)] true [⟨true, []⟩]
          = some recs ∧
        recs.length = 1) ∧
    (F64.valid (F64.ofNat 20000) = true ∧
      main Endian.little 0
          [Opt.payload PayloadFile.openFails, Opt.rate (F64.ofNat 20000)] true
        = Startup.exited 1 false) := by
  have hm : main Endian.little 0 [Opt.rate (F64.fin false 40960001 12)] true
      = Startup.streaming
          { defaults Endian.little 0 with sendRate := F32.fin false 10240000 10 } := rfl
  have hwf := main_streaming_wf _ _ _ _ _ hm
  obtain ⟨st1, recs, hr, hlen, _⟩ :=
    runLoop_spec Endian.little 9 ⟨0, 100000⟩ [⟨true, []⟩]
      { defaults Endian.little 0 with sendRate := F32.fin false 10240000 10 }
      (by decide) (by decide) hwf
  refine ⟨⟨by decide, by decide, _, recs, hm, rfl, ?_, hlen⟩, by decide, rfl⟩
  unfold run
  rw [hm]
  simp only [hr]

/-- C7, amended: for every rate given with `-r`/`--rate` whose value, the
`double` returned by `atof`, is greater than `10000 + 2^-11` (for example
20000), the value stored in `sendRate` is above 10000 and that option ends the
process with exit status 0, in whatever state, without looking at any later
option. Hence for every command line containing such an option the process
exits during option processing, before `socket` is called and before the loop,
so no packet is sent; the exit status is 0, or 1 when a `-c` option before it
cannot be opened or read, and it is 0 whenever the options before it let
processing reach it. -/
theorem C7_rate_above_limit_exits (e : Endian) (randValue : Nat) (pre post : List Opt)
    (num scale : Nat) (socketOk : Bool) (envs : List IterEnv)
    (hv : (10000 * 2 ^ 11 + 1) * 2 ^ scale < num * 2 ^ 11) :
    (F64.toFloat (F64.fin false num scale)).gtNat 10000 = true ∧
    (∀ st : State,
      processOption st (Opt.rate (F64.fin false num scale)) = Except.error 0) ∧
    (∀ st : State,
      processOptions st (Opt.rate (F64.fin false num scale) :: post) = Except.error 0) ∧
    (∃ status,
      main e randValue (pre ++ Opt.rate (F64.fin false num scale) :: post) socketOk
        = Startup.exited status false ∧
      (status = 0 ∨ (status = 1 ∧ ∃ o ∈ pre, o = Opt.payload PayloadFile.openFails ∨
        o = Opt.payload PayloadFile.readFails))) ∧
    run e randValue (pre ++ Opt.rate (F64.fin false num scale) :: post) socketOk envs
      = some [] ∧
    (∀ st, processOptions (defaults e randValue) pre = Except.ok st →
      main e randValue (pre ++ Opt.rate (F64.fin false num scale) :: post) socketOk
        = Startup.exited 0 false) := by
  have hgt := toFloat_gt_of_gt num scale hv
  have key : ∀ st, processOptions (defaults e randValue) pre = Except.ok st →
      main e randValue (pre ++ Opt.rate (F64.fin false num scale) :: post) socketOk
        = Startup.exited 0 false := by
    intro st hst
    unfold main
    rw [processOptions_append, hst]
    simp only [processOptions_rate_exit _ _ post hgt]
  have hex : ∃ status,
      main e randValue (pre ++ Opt.rate (F64.fin false num scale) :: post) socketOk
        = Startup.exited status false ∧
      (status = 0 ∨ (status = 1 ∧ ∃ o ∈ pre, o = Opt.payload PayloadFile.openFails ∨
        o = Opt.payload PayloadFile.readFails)) := by
    cases hp : processOptions (defaults e randValue) pre with
    | error s =>
      refine ⟨s, ?_, processOptions_error_status pre _ s hp⟩
      unfold main
      rw [processOptions_append, hp]
    | ok st => exact ⟨0, key st hp, Or.inl rfl⟩
  refine ⟨hgt, ?_, fun st => processOptions_rate_exit st _ post hgt, hex, ?_, key⟩
  · intro st
    simp [processOption, hgt]
  · obtain ⟨s, hs, _⟩ := hex
    unfold run
    rw [hs]

/-- Witness for C7: the invocation `-r 20000`. -/
theorem C7_rate_above_limit_exits_witness :
    (10000 * 2 ^ 11 + 1) * 2 ^ 0 < 20000 * 2 ^ 11 ∧
    processOptions (defaults Endian.little 0) [] = Except.ok (defaults Endian.little 0) ∧
    main Endian.little 0 ([] ++ Opt.rate (F64.fin false 20000 0) :: []) true
      = Startup.exited 0 false ∧
    run Endian.little 0 ([] ++ Opt.rate (F64.fin false 20000 0) :: []) true [⟨true, []⟩]
      = some [] :=
  ⟨by decide, rfl,
    (C7_rate_above_limit_exits Endian.little 0 [] [] 20000 0 true [⟨true, []⟩]
      (by decide)).2.2.2.2.2 _ rfl,
    (C7_rate_above_limit_exits Endian.little 0 [] [] 20000 0 true [⟨true, []⟩]
      (by decide)).2.2.2.2.1⟩

/-- C4: in every state the loop can reach, from the state in which `main` enters
the loop (payload left at its default or loaded by any sequence of `-c`
options) through any number of iterations, `0 <= payloadLength <= 1484`, the
length passed to `sendto` is `16 + payloadLength`, at most 1500, the size of
`packetBuffer`, and every datagram has exactly that many bytes; with no `-c`
option the length is 29. -/
theorem C4_datagram_length (e : Endian) (randValue : Nat) (opts : List Opt)
    (socketOk : Bool) (st : State)
    (h : main e randValue opts socketOk = Startup.streaming st) :
    (0 ≤ st.payloadLength ∧ st.payloadLength ≤ 1484 ∧
      sendLength st = 16 + st.payloadLength ∧ sendLength st ≤ 1500 ∧
      st.packetBuffer.length = 1500) ∧
    (∀ (envs : List IterEnv) (st1 : State) (recs : List IterRecord),
      runLoop e st envs = some (st1, recs) →
        (0 ≤ st1.payloadLength ∧ st1.payloadLength ≤ 1484 ∧
          sendLength st1 = 16 + st1.payloadLength ∧ sendLength st1 ≤ 1500 ∧
          st1.packetBuffer.length = 1500) ∧
        ∀ r ∈ recs, (r.datagram.length : Int) = 16 + st.payloadLength ∧
          r.datagram.length ≤ 1500) ∧
    ((∀ o ∈ opts, ∀ f, o ≠ Opt.payload f) → sendLength st = 29) := by
  have hwf := main_streaming_wf e randValue opts socketOk st h
  have hfacts : ∀ s : State, s.wf e →
      (0 ≤ s.payloadLength ∧ s.payloadLength ≤ 1484 ∧
        sendLength s = 16 + s.payloadLength ∧ sendLength s ≤ 1500 ∧
        s.packetBuffer.length = 1500) := by
    intro s hs
    obtain ⟨w1, _, w3, w4, _⟩ := hs
    unfold sendLength
    refine ⟨w3, w4, ?_, ?_, w1⟩ <;> omega
  refine ⟨hfacts st hwf, ?_, ?_⟩
  · intro envs st1 recs hrun
    cases envs with
    | nil =>
      simp only [runLoop, Option.some.injEq, Prod.mk.injEq] at hrun
      obtain ⟨a, b⟩ := hrun
      subst a
      subst b
      exact ⟨hfacts st hwf, by simp⟩
    | cons env rest =>
      have hu := runLoop_cons_usable e st env rest _ hrun
      obtain ⟨step, req, h1, h2⟩ := rateUsable_some _ hu
      obtain ⟨sa, ra, hr, hlen, hwa, _, _, _, _, _, _, _, hrec⟩ :=
        runLoop_spec e step req (env :: rest) st h1 h2 hwf
      rw [hr] at hrun
      simp only [Option.some.injEq, Prod.mk.injEq] at hrun
      obtain ⟨a, b⟩ := hrun
      subst a
      subst b
      refine ⟨hfacts sa hwa, ?_⟩
      intro r hr
      obtain ⟨k, hk⟩ := List.getElem?_of_mem hr
      obtain ⟨env1, henv⟩ := getElem?_of_length_eq (env :: rest) ra k r hlen hk
      have hd := (hrec k env1 r henv hk).1
      obtain ⟨_, w2, w3, w4, _⟩ := hwf
      have hl : r.datagram.length = 16 + st.payloadLength.toNat := by
        rw [hd]
        simp only [List.length_append, List.length_cons, List.length_nil, mem32_length,
          List.length_take]
        omega
      constructor <;> omega
  · intro hno
    have hp := processOptions_noPayload opts _ st hno
      (main_streaming e randValue opts socketOk st h)
    unfold sendLength
    rw [hp.2]
    rfl

/-- Witness for C4: the default configuration. -/
theorem C4_datagram_length_witness :
    ∃ st, main Endian.little 0 [] true = Startup.streaming st ∧
      (0 ≤ st.payloadLength ∧ st.payloadLength ≤ 1484 ∧
        sendLength st = 16 + st.payloadLength ∧ sendLength st ≤ 1500 ∧
        st.packetBuffer.length = 1500) ∧
      sendLength st = 29 :=
  ⟨_, rfl, (C4_datagram_length Endian.little 0 [] true _ rfl).1,
    (C4_datagram_length Endian.little 0 [] true _ rfl).2.2 (by simp)⟩

theorem take_min_take (bytes : List Nat) :
    bytes.take 1484 = bytes.take (min bytes.length 1484) := by
  by_cases h : bytes.length ≤ 1484
  · rw [Nat.min_eq_left h, List.take_of_length_le h, List.take_of_length_le (le_refl _)]
  · rw [Nat.min_eq_right (by omega)]

theorem take_append_self (src rest : List Nat) (n : Nat) (h : n = src.length) :
    (src ++ rest).take n = src := by
  subst h
  exact List.take_left _ _

/-- C8: once `main` has reached the loop, the payload buffer still has its 1484
bytes and is determined by the payload source: with no `-c` option
`payloadLength` is 13 and the buffer starts with the 12 characters of
"TEST PAYLOAD" and a zero byte; when the last `-c` option names a file of `L`
bytes, `payloadLength = min(L, 1484)` and the first `payloadLength` bytes of
the buffer are the first `payloadLength` bytes of the file. -/
theorem C8_payload_store (e : Endian) (randValue : Nat) (opts : List Opt) (socketOk : Bool)
    (st : State) (h : main e randValue opts socketOk = Startup.streaming st) :
    st.payload.length = 1484 ∧
    ((∀ o ∈ opts, ∀ f, o ≠ Opt.payload f) →
      st.payloadLength = 13 ∧
      st.payload.take 13 = [84, 69, 83, 84, 32, 80, 65, 89, 76, 79, 65, 68, 0]) ∧
    (∀ (pre post : List Opt) (bytes : List Nat),
      opts = pre ++ Opt.payload (PayloadFile.contents bytes) :: post →
      (∀ o ∈ post, ∀ f, o ≠ Opt.payload f) →
      st.payloadLength = ((min bytes.length 1484 : Nat) : Int) ∧
      st.payload.take (min bytes.length 1484) = bytes.take (min bytes.length 1484)) := by
  have hp := main_streaming e randValue opts socketOk st h
  have hwf := main_streaming_wf e randValue opts socketOk st h
  refine ⟨hwf.2.1, ?_, ?_⟩
  · intro hno
    obtain ⟨a, b⟩ := processOptions_noPayload opts _ st hno hp
    rw [a, b]
    constructor
    · rfl
    · show (memcpy (List.replicate 1484 0) 0 testMessage).take 13 = _
      unfold memcpy testMessage
      rfl
  · intro pre post bytes hopts hno
    subst hopts
    rw [processOptions_append] at hp
    cases hpre : processOptions (defaults e randValue) pre with
    | error s => rw [hpre] at hp; cases hp
    | ok sp =>
      rw [hpre] at hp
      simp only [processOptions, processOption] at hp
      obtain ⟨a, b⟩ := processOptions_noPayload post _ st hno hp
      rw [a, b]
      simp only [List.length_take]
      constructor
      · rw [Nat.min_comm]
      · unfold memcpy
        simp only [List.take_zero, List.nil_append, Nat.zero_add]
        rw [take_min_take bytes]
        have hl : (bytes.take (min bytes.length 1484)).length = min bytes.length 1484 := by
          rw [List.length_take]; omega
        exact take_append_self _ _ _ hl.symm

/-- Witness for C8: the invocation `-c file` with a file of three bytes, and
the invocation without options. -/
theorem C8_payload_store_witness :
    (∃ st,
      main Endian.little 0 [Opt.payload (PayloadFile.contents [1, 2, 3])] true
        = Startup.streaming st ∧
      st.payload.length = 1484 ∧
      st.payloadLength = ((min ([1, 2, 3] : List Nat).length 1484 : Nat) : Int) ∧
      st.payload.take (min ([1, 2, 3] : List Nat).length 1484)
        = ([1, 2, 3] : List Nat).take (min ([1, 2, 3] : List Nat).length 1484)) ∧
    (∃ st, main Endian.little 0 [] true = Startup.streaming st ∧
      st.payloadLength = 13 ∧
      st.payload.take 13 = [84, 69, 83, 84, 32, 80, 65, 89, 76, 79, 65, 68, 0]) :=
  ⟨⟨_, rfl,
    (C8_payload_store Endian.little 0 [Opt.payload (PayloadFile.contents [1, 2, 3])] true _
      rfl).1,
    (C8_payload_store Endian.little 0 [Opt.payload (PayloadFile.contents [1, 2, 3])] true _
      rfl).2.2 [] [] [1, 2, 3] rfl (by simp)⟩,
   ⟨_, rfl, (C8_payload_store Endian.little 0 [] true _ rfl).2.1 (by simp)⟩⟩

theorem ofNs_ok (n : Nat) : (Timespec.ofNs n).ok = true := by
  unfold Timespec.ofNs Timespec.ok
  simp only [Bool.and_eq_true, decide_eq_true_eq]
  refine ⟨⟨?_, ?_⟩, ?_⟩ <;> omega

theorem ofNs_ns (n : Nat) : (Timespec.ofNs n).ns = (n : Int) := by
  unfold Timespec.ofNs Timespec.ns
  simp only
  omega

theorem ok_ns_nonneg (req : Timespec) (h : req.ok = true) : 0 ≤ req.ns := by
  unfold Timespec.ok at h
  simp only [Bool.and_eq_true, decide_eq_true_eq] at h
  unfold Timespec.ns
  omega

theorem waitLoop_spec (final : SleepEvent) (rest : List SleepEvent)
    (hfinal : ∀ t, final ≠ SleepEvent.interrupted t) :
    ∀ (ts : List Nat) (req : Timespec), req.ok = true → (ts.sum : Int) ≤ req.ns →
      ((waitLoop req (ts.map SleepEvent.interrupted ++ final :: rest)).2).length
        = ts.length + 1 ∧
      (∀ (j : Nat) (c : SleepCall),
        ((waitLoop req (ts.map SleepEvent.interrupted ++ final :: rest)).2)[j]? = some c →
        c.request.ok = true ∧ c.request.ns = req.ns - ((ts.take j).sum : Int)) ∧
      (∀ (j : Nat) (t : Nat) (c : SleepCall), ts[j]? = some t →
        ((waitLoop req (ts.map SleepEvent.interrupted ++ final :: rest)).2)[j]? = some c →
        c.slept = t) ∧
      (final = SleepEvent.completes →
        ((((waitLoop req (ts.map SleepEvent.interrupted ++ final :: rest)).2).map
          SleepCall.slept).sum : Int) = req.ns) ∧
      (final = SleepEvent.fails →
        (((waitLoop req (ts.map SleepEvent.interrupted ++ final :: rest)).2).map
          SleepCall.slept).sum = ts.sum) := by
  intro ts
  induction ts with
  | nil =>
    intro req hok _
    have hnn := ok_ns_nonneg req hok
    have hidx : ∀ (x : SleepCall) (j : Nat) (c : SleepCall), [x][j]? = some c → c = x := by
      intro x j c hc
      cases j with
      | zero =>
        simp only [List.getElem?_cons_zero, Option.some.injEq] at hc
        exact hc.symm
      | succ i => simp at hc
    cases final with
    | interrupted t => exact absurd rfl (hfinal t)
    | completes =>
      have hw : waitLoop req ([].map SleepEvent.interrupted ++ SleepEvent.completes :: rest)
          = (req, [⟨req, req.ns.toNat⟩]) := by
        simp only [List.map_nil, List.nil_append, waitLoop, hok, if_true]
      rw [hw]
      refine ⟨rfl, ?_, ?_, ?_, ?_⟩
      · intro j c hc
        rw [hidx _ j c hc]
        simp [hok]
      · intro j t c ht
        simp at ht
      · intro _
        simp only [List.map_cons, List.map_nil, List.sum_cons, List.sum_nil, Nat.add_zero]
        omega
      · intro hc
        cases hc
    | fails =>
      have hw : waitLoop req ([].map SleepEvent.interrupted ++ SleepEvent.fails :: rest)
          = (req, [⟨req, 0⟩]) := by
        simp only [List.map_nil, List.nil_append, waitLoop]
      rw [hw]
      refine ⟨rfl, ?_, ?_, ?_, ?_⟩
      · intro j c hc
        rw [hidx _ j c hc]
        simp [hok]
      · intro j t c ht
        simp at ht
      · intro hc
        cases hc
      · intro _
        rfl
  | cons t ts ih =>
    intro req hok hsum
    have hnn := ok_ns_nonneg req hok
    simp only [List.sum_cons, Nat.cast_add] at hsum
    have hts0 : (0 : Int) ≤ (ts.sum : Int) := Int.ofNat_nonneg _
    have hmin : min t req.ns.toNat = t := by
      apply Nat.min_eq_left
      omega
    have hreq1 : ((ts.sum : Nat) : Int) ≤ (Timespec.ofNs (req.ns.toNat - t)).ns := by
      rw [ofNs_ns]
      omega
    obtain ⟨i1, i2, i3, i4, i5⟩ := ih (Timespec.ofNs (req.ns.toNat - t)) (ofNs_ok _) hreq1
    have hw : waitLoop req ((t :: ts).map SleepEvent.interrupted ++ final :: rest)
        = ((waitLoop (Timespec.ofNs (req.ns.toNat - t))
              (ts.map SleepEvent.interrupted ++ final :: rest)).1,
            ⟨req, t⟩ :: (waitLoop (Timespec.ofNs (req.ns.toNat - t))
              (ts.map SleepEvent.interrupted ++ final :: rest)).2) := by
      rw [List.map_cons, List.cons_append]
      simp only [waitLoop, hok, if_true, hmin]
    rw [hw]
    generalize (waitLoop (Timespec.ofNs (req.ns.toNat - t))
      (ts.map SleepEvent.interrupted ++ final :: rest)).2 = calls at *
    rw [ofNs_ns] at i2 i4
    refine ⟨?_, ?_, ?_, ?_, ?_⟩
    · simp only [List.length_cons, i1]
    · intro j c hc
      cases j with
      | zero =>
        simp only [List.getElem?_cons_zero, Option.some.injEq] at hc
        subst hc
        simp [hok]
      | succ i =>
        simp only [List.getElem?_cons_succ] at hc
        obtain ⟨k1, k2⟩ := i2 i c hc
        refine ⟨k1, ?_⟩
        rw [k2]
        simp only [List.take_succ_cons, List.sum_cons, Nat.cast_add]
        omega
    · intro j t1 c ht hc
      cases j with
      | zero =>
        simp only [List.getElem?_cons_zero, Option.some.injEq] at ht hc
        subst hc
        exact ht
      | succ i =>
        simp only [List.getElem?_cons_succ] at ht hc
        exact i3 i t1 c ht hc
    · intro hf
      have := i4 hf
      simp only [List.map_cons, List.sum_cons, Nat.cast_add]
      omega
    · intro hf
      have := i5 hf
      simp only [List.map_cons, List.sum_cons]
      omega

theorem natDivTrunc_pos (N num scale : Nat) (hpos : 0 < num)
    (h : quotTrunc N num scale < 2 ^ 128) :
    F32.natDivTrunc N (F32.fin false num scale) = some ((quotTrunc N num scale : Nat) : Int) := by
  unfold F32.natDivTrunc
  have h1 : ¬ num = 0 := by omega
  have h2 : ¬ (2 ^ 128 ≤ quotTrunc N num scale) := by omega
  simp only [h1, h2, if_false, Bool.false_eq_true]

theorem toUInt32_natCast (T : Nat) (hlt : T < 4294967296) :
    toUInt32 (some (T : Int)) = some T := by
  unfold toUInt32
  have h3 : (0 : Int) ≤ (T : Int) ∧ (T : Int) < 4294967296 := by omega
  simp only [h3, and_self, if_true, Int.toNat_ofNat]

theorem toInt64_natCast (T : Nat) (hlt : T < 9223372036854775808) :
    toInt64 (some (T : Int)) = some (T : Int) := by
  unfold toInt64
  have h3 : (-9223372036854775808 : Int) ≤ (T : Int) ∧
      (T : Int) < 9223372036854775808 := by omega
  simp only [h3, and_self, if_true]

theorem timespec_natCast (T : Nat) :
    (⟨Int.tdiv (T : Int) 1000000000, Int.tmod (T : Int) 1000000000⟩ : Timespec)
      = Timespec.ofNs T := by
  unfold Timespec.ofNs
  rw [Int.ofNat_tdiv, Int.ofNat_tmod]
  rfl

theorem step_defined (num scale : Nat) (hpos : 0 < num) (hle : num ≤ 10000 * 2 ^ scale)
    (hlo : 2 ^ scale ≤ num * 2 ^ 15) :
    quotTrunc 90000 num scale < 4294967296 ∧
    toUInt32 (F32.natDivTrunc 90000 (F32.fin false num scale))
      = some (quotTrunc 90000 num scale) := by
  have hb := quotTrunc_bound 90000 15 num scale (by norm_num) hpos hle hlo
  have hlt : quotTrunc 90000 num scale < 4294967296 := by
    norm_num at hb
    omega
  refine ⟨hlt, ?_⟩
  rw [natDivTrunc_pos 90000 num scale hpos (by
    have : (4294967296 : Nat) < 2 ^ 128 := by norm_num
    omega)]
  exact toUInt32_natCast _ hlt

theorem sleep_defined (num scale : Nat) (hpos : 0 < num) (hle : num ≤ 10000 * 2 ^ scale)
    (hlo : 2 ^ scale ≤ num * 2 ^ 33) :
    sleepInterval (F32.fin false num scale)
      = some (Timespec.ofNs (quotTrunc 1000000000 num scale)) := by
  have hb := quotTrunc_bound 1000000000 33 num scale (by norm_num) hpos hle hlo
  have hlt : quotTrunc 1000000000 num scale < 9223372036854775808 := by
    norm_num at hb
    omega
  unfold sleepInterval
  rw [natDivTrunc_pos 1000000000 num scale hpos (by
    have : (9223372036854775808 : Nat) < 2 ^ 128 := by norm_num
    omega), toInt64_natCast _ hlt]
  exact congrArg some (timespec_natCast _)

theorem pow15_le_pow33 (num scale : Nat) (hlo : 2 ^ scale ≤ num * 2 ^ 15) :
    2 ^ scale ≤ num * 2 ^ 33 := by
  have : num * 2 ^ 15 ≤ num * 2 ^ 33 :=
    Nat.mul_le_mul_left _ (Nat.pow_le_pow_right (by norm_num) (by norm_num))
  omega

/-- C3 as stated fails. The quotient 90000/rate is a `float` before it is cast.
For the rate 0.001 as stored in a `float`, 8589935 / 2^33, the exact quotient
is about 89999995.7; binary32 values of that size are multiples of 8, the
division yields 89999992 and `getRtpTimestamp` adds 89999992, while
floor(90000/rate) is 89999995. For the rate 8181.818359375 = 4189091 / 2^9
the exact quotient is about 11 - 2.4e-7, closer to 11 than to the next
binary32 value below 11 (11 - 2^-20), so 11 is added while the floor is 10.
For the rate `2^-20` the quotient exceeds the range of `uint32_t` and the
cast has no defined result. All three rates are binary32 values in (0, 10000]. -/
theorem C3_counterexample :
    (F32.valid (F32.fin false 8589935 33) = true ∧
      0 < 8589935 ∧ F32.gtNat (F32.fin false 8589935 33) 10000 = false ∧
      getRtpTimestamp (F32.fin false 8589935 33) 0 = some 89999992 ∧
      90000 * 2 ^ 33 / 8589935 = 89999995) ∧
    (F32.valid (F32.fin false 4189091 9) = true ∧
      0 < 4189091 ∧ F32.gtNat (F32.fin false 4189091 9) 10000 = false ∧
      getRtpTimestamp (F32.fin false 4189091 9) 0 = some 11 ∧
      90000 * 2 ^ 9 / 4189091 = 10) ∧
    (F32.valid (F32.fin false 1 20) = true ∧
      F32.gtNat (F32.fin false 1 20) 10000 = false ∧
      getRtpTimestamp (F32.fin false 1 20) 0 = none) := by
  refine ⟨⟨by decide, by decide, by decide, by decide, by decide⟩,
    ⟨by decide, by decide, by decide, by decide, by decide⟩,
    by decide, by decide, by decide⟩

/-- C3, amended: for every rate `num / 2^scale` with `2^-15 <= rate <= 10000`
each call of `getRtpTimestamp` adds one fixed step below `2^32` to the
accumulator, modulo `2^32`. The step is the single-precision quotient
90000/rate with its fraction discarded: it is floor(90000/rate) or
floor(90000/rate) + 1 when 90000/rate is below `2^24`, it is within
`1 + (90000/rate)/2^24` of 90000/rate in every case, and it is exactly
floor(90000/rate) for every integer rate. With the accumulator starting at 0,
datagram number `k+1` carries `((k+1) * step) mod 2^32` big-endian in bytes 4-7. -/
theorem C3_timestamp_step (num scale : Nat) (hpos : 0 < num)
    (hle : num ≤ 10000 * 2 ^ scale) (hlo : 2 ^ scale ≤ num * 2 ^ 15) :
    ∃ step, step < 4294967296 ∧
      (∀ acc, getRtpTimestamp (F32.fin false num scale) acc
        = some ((acc + step) % 4294967296)) ∧
      (90000 * 2 ^ scale < 2 ^ 24 * num →
        step = 90000 * 2 ^ scale / num ∨ step = 90000 * 2 ^ scale / num + 1) ∧
      (step * num * 2 ^ 24 ≤ 90000 * 2 ^ scale * 2 ^ 24 + (90000 * 2 ^ scale + num * 2 ^ 24) ∧
        90000 * 2 ^ scale * 2 ^ 24
          ≤ step * num * 2 ^ 24 + (90000 * 2 ^ scale + num * 2 ^ 24)) ∧
      (scale = 0 → step = 90000 / num) ∧
      (∀ (e : Endian) (st : State) (envs : List IterEnv), st.wf e →
        st.sendRate = F32.fin false num scale → st.rtpTime = 0 →
        ∃ st1 recs, runLoop e st envs = some (st1, recs) ∧ recs.length = envs.length ∧
          ∀ (k : Nat) (r : IterRecord), recs[k]? = some r →
            (r.datagram.drop 4).take 4 =
              [((k + 1) * step) % 4294967296 / 16777216,
                ((k + 1) * step) % 4294967296 / 65536 % 256,
                ((k + 1) * step) % 4294967296 / 256 % 256,
                ((k + 1) * step) % 4294967296 % 256]) := by
  obtain ⟨hlt, hstep⟩ := step_defined num scale hpos hle hlo
  have hsleep := sleep_defined num scale hpos hle (pow15_le_pow33 num scale hlo)
  have hS : 0 < 2 ^ scale := Nat.pow_pos (by norm_num)
  have hB : num ≤ 90000 * 2 ^ scale := by nlinarith
  refine ⟨quotTrunc 90000 num scale, hlt, ?_, ?_, ?_, ?_, ?_⟩
  · intro acc
    unfold getRtpTimestamp
    rw [hstep]
  · intro h24
    exact trunc_round_near_floor _ _ hpos hB h24
  · exact trunc_round_error _ _ hpos hB
  · intro h0
    subst h0
    exact quotTrunc_integer_rate num hpos (by simpa using hle)
  · intro e st envs hwf hr ht
    obtain ⟨st1, recs, hrun, hlen, _, _, _, _, _, _, _, _, hrec⟩ :=
      runLoop_spec e (quotTrunc 90000 num scale) _ envs st
        (by rw [hr]; exact hstep) (by rw [hr]; exact hsleep) hwf
    refine ⟨st1, recs, hrun, hlen, ?_⟩
    intro k r hk
    obtain ⟨env, henv⟩ := getElem?_of_length_eq envs recs k r hlen hk
    rw [(hrec k env r henv hk).1, ht, Nat.zero_add]
    rfl

/-- Witness for C3: the rate 30, whose step is 3000. -/
theorem C3_timestamp_step_witness :
    (0 < 30 ∧ 30 ≤ 10000 * 2 ^ 0 ∧ 2 ^ 0 ≤ 30 * 2 ^ 15) ∧
    ∃ step, step < 4294967296 ∧
      (∀ acc, getRtpTimestamp (F32.fin false 30 0) acc = some ((acc + step) % 4294967296)) ∧
      step = 3000 := by
  obtain ⟨step, h1, h2, _, _, h5, _⟩ :=
    C3_timestamp_step 30 0 (by decide) (by decide) (by decide)
  exact ⟨⟨by decide, by decide, by decide⟩, step, h1, h2, by rw [h5 rfl]⟩

/-- C5 as stated fails. For the rate 7 the loop requests 142857136 ns: the
exact quotient is about 142857142.86, binary32 values of that size are
multiples of 16, and round(1e9/7) = 142857143 (7 * 142857143 differs from 1e9
by 1). For the rate 30 it requests 33333334 ns, while round(1e9/30) = 33333333,
an odd number above `2^24` that no `float` can hold. For the binary32 rate
`2^-40` the quotient exceeds the range of `long long`, so that no interval
is defined. All three rates are binary32 values in (0, 10000]. -/
theorem C5_counterexample :
    (F32.valid (F32.ofNat 7) = true ∧ F32.gtNat (F32.ofNat 7) 10000 = false ∧
      sleepInterval (F32.ofNat 7) = some ⟨0, 142857136⟩ ∧
      2 * (142857143 * 7 - 1000000000) < 7 ∧
      (0 : Int) * 1000000000 + 142857136 ≠ 142857143) ∧
    (F32.valid (F32.ofNat 30) = true ∧ F32.gtNat (F32.ofNat 30) 10000 = false ∧
      sleepInterval (F32.ofNat 30) = some ⟨0, 33333334⟩ ∧
      2 * (1000000000 - 33333333 * 30) < 30 ∧
      (0 : Int) * 1000000000 + 33333334 ≠ 33333333) ∧
    (F32.valid (F32.fin false 1 40) = true ∧
      F32.gtNat (F32.fin false 1 40) 10000 = false ∧
      sleepInterval (F32.fin false 1 40) = none) := by
  refine ⟨⟨by decide, by decide, by decide, by decide, by decide⟩,
    ⟨by decide, by decide, by decide, by decide, by decide⟩,
    by decide, by decide, by decide⟩

/-- C5, amended: for every rate `num / 2^scale` with `2^-33 <= rate <= 10000`
the loop requests `tv_sec * 10^9 + tv_nsec` nanoseconds with
`0 <= tv_nsec < 10^9`, and that interval is the single-precision quotient
1e9/rate with its fraction discarded: floor(1e9/rate) or floor(1e9/rate) + 1
when 1e9/rate is below `2^24`, and within `(1e9/rate) / 2^24` of 1e9/rate when
1e9/rate is at least `2^23`. -/
theorem C5_sleep_interval (num scale : Nat) (hpos : 0 < num)
    (hle : num ≤ 10000 * 2 ^ scale) (hlo : 2 ^ scale ≤ num * 2 ^ 33) :
    ∃ (req : Timespec) (ns : Nat),
      sleepInterval (F32.fin false num scale) = some req ∧
      0 ≤ req.tv_sec ∧ 0 ≤ req.tv_nsec ∧ req.tv_nsec < 1000000000 ∧
      req.tv_sec * 1000000000 + req.tv_nsec = (ns : Int) ∧
      (1000000000 * 2 ^ scale < 2 ^ 24 * num →
        ns = 1000000000 * 2 ^ scale / num ∨ ns = 1000000000 * 2 ^ scale / num + 1) ∧
      (2 ^ 23 * num ≤ 1000000000 * 2 ^ scale →
        ns * num * 2 ^ 24 ≤ 1000000000 * 2 ^ scale * 2 ^ 24 + 1000000000 * 2 ^ scale ∧
        1000000000 * 2 ^ scale * 2 ^ 24 ≤ ns * num * 2 ^ 24 + 1000000000 * 2 ^ scale) := by
  have hsleep := sleep_defined num scale hpos hle hlo
  have hS : 0 < 2 ^ scale := Nat.pow_pos (by norm_num)
  have hB : num ≤ 1000000000 * 2 ^ scale := by nlinarith
  refine ⟨_, quotTrunc 1000000000 num scale, hsleep, ?_, ?_, ?_, ?_, ?_, ?_⟩
  · unfold Timespec.ofNs; simp only; omega
  · unfold Timespec.ofNs; simp only; omega
  · unfold Timespec.ofNs; simp only; omega
  · exact ofNs_ns _
  · intro h24
    exact trunc_round_near_floor _ _ hpos hB h24
  · intro h23
    exact trunc_round_error_hi _ _ hpos hB h23

/-- Witness for C5: the rate 30, for which 33333334 ns are requested. -/
theorem C5_sleep_interval_witness :
    (0 < 30 ∧ 30 ≤ 10000 * 2 ^ 0 ∧ 2 ^ 0 ≤ 30 * 2 ^ 33) ∧
    ∃ (req : Timespec) (ns : Nat),
      sleepInterval (F32.fin false 30 0) = some req ∧
      0 ≤ req.tv_sec ∧ 0 ≤ req.tv_nsec ∧ req.tv_nsec < 1000000000 ∧
      req.tv_sec * 1000000000 + req.tv_nsec = (ns : Int) ∧
      (1000000000 * 2 ^ 0 < 2 ^ 24 * 30 →
        ns = 1000000000 * 2 ^ 0 / 30 ∨ ns = 1000000000 * 2 ^ 0 / 30 + 1) ∧
      (2 ^ 23 * 30 ≤ 1000000000 * 2 ^ 0 →
        ns * 30 * 2 ^ 24 ≤ 1000000000 * 2 ^ 0 * 2 ^ 24 + 1000000000 * 2 ^ 0 ∧
        1000000000 * 2 ^ 0 * 2 ^ 24 ≤ ns * 30 * 2 ^ 24 + 1000000000 * 2 ^ 0) :=
  ⟨⟨by decide, by decide, by decide⟩,
    C5_sleep_interval 30 0 (by decide) (by decide) (by decide)⟩

/-- C6 as stated fails in one particular: with `nanosleep` modelled as the
claim says, an interruption after `t = 0` nanoseconds writes back the whole
request, so the loop re-issues the sleep with the full interval. For an
interval of one second interrupted at once and then completing, both calls
ask for the full second. -/
theorem C6_counterexample :
    (⟨1, 0⟩ : Timespec).ok = true ∧
    (((([0] : List Nat).sum : Nat) : Int) ≤ (⟨1, 0⟩ : Timespec).ns) ∧
    (waitLoop ⟨1, 0⟩ [SleepEvent.interrupted 0, SleepEvent.completes]).2
      = [⟨⟨1, 0⟩, 0⟩, ⟨⟨1, 0⟩, 1000000000⟩] := by
  refine ⟨by decide, by decide, by decide⟩

/-- C6, amended: with `nanosleep` either completing, failing with another error, or
being interrupted after sleeping `t` nanoseconds and writing back the unslept
time, for every accepted interval and every finite sequence of interruptions
the wait loop makes exactly one call more than there were interruptions (it
stops at the first call that completes or fails otherwise, whatever might
follow); each call is issued with the interval minus the time already slept,
so every re-issued call asks for less than the full interval once any time
has been slept, in particular always when each interruption came after a
positive time; each interrupted call slept its `t`; and when the last call
completes the times slept add up to the original interval. -/
theorem C6_wait_resumes_remaining (req : Timespec) (ts : List Nat) (final : SleepEvent)
    (rest : List SleepEvent) (hok : req.ok = true) (hts : (ts.sum : Int) ≤ req.ns)
    (hfinal : ∀ t, final ≠ SleepEvent.interrupted t) :
    ((waitLoop req (ts.map SleepEvent.interrupted ++ final :: rest)).2).length
      = ts.length + 1 ∧
    (∀ (j : Nat) (c : SleepCall),
      ((waitLoop req (ts.map SleepEvent.interrupted ++ final :: rest)).2)[j]? = some c →
      c.request.ns = req.ns - ((ts.take j).sum : Int) ∧
      (0 < (ts.take j).sum → c.request.ns < req.ns) ∧
      ((∀ t ∈ ts, 0 < t) → 1 ≤ j → c.request.ns < req.ns)) ∧
    (∀ (j : Nat) (t : Nat) (c : SleepCall), ts[j]? = some t →
      ((waitLoop req (ts.map SleepEvent.interrupted ++ final :: rest)).2)[j]? = some c →
      c.slept = t) ∧
    (final = SleepEvent.completes →
      ((((waitLoop req (ts.map SleepEvent.interrupted ++ final :: rest)).2).map
        SleepCall.slept).sum : Int) = req.ns) ∧
    (final = SleepEvent.fails →
      (((waitLoop req (ts.map SleepEvent.interrupted ++ final :: rest)).2).map
        SleepCall.slept).sum = ts.sum) := by
  obtain ⟨h1, h2, h3, h4, h5⟩ := waitLoop_spec final rest hfinal ts req hok hts
  refine ⟨h1, ?_, h3, h4, h5⟩
  intro j c hc
  have hreq := (h2 j c hc).2
  refine ⟨hreq, ?_, ?_⟩
  · intro hpos
    omega
  · intro hall hj
    have hjlen : j < ts.length + 1 := by
      by_contra hcon
      rw [List.getElem?_eq_none (by omega)] at hc
      cases hc
    have hsum : 0 < (ts.take j).sum := by
      cases ts with
      | nil => simp only [List.length_nil] at hjlen; omega
      | cons t0 tl =>
        cases j with
        | zero => omega
        | succ i =>
          have := hall t0 (List.mem_cons_self _ _)
          simp only [List.take_succ_cons, List.sum_cons]
          omega
    omega

/-- Witness for C6: an interval of 33333334 ns interrupted after 10 ms and
again after 20 ms, then completing; three calls, 33333334 ns slept in all. -/
theorem C6_wait_resumes_remaining_witness :
    ((⟨0, 33333334⟩ : Timespec).ok = true ∧
      ((([10000000, 20000000] : List Nat).sum : Nat) : Int) ≤ (⟨0, 33333334⟩ : Timespec).ns) ∧
    ((waitLoop ⟨0, 33333334⟩
        (([10000000, 20000000] : List Nat).map SleepEvent.interrupted
          ++ SleepEvent.completes :: [SleepEvent.interrupted 5])).2).length
      = ([10000000, 20000000] : List Nat).length + 1 ∧
    ((((waitLoop ⟨0, 33333334⟩
        (([10000000, 20000000] : List Nat).map SleepEvent.interrupted
          ++ SleepEvent.completes :: [SleepEvent.interrupted 5])).2).map
      SleepCall.slept).sum : Int) = (⟨0, 33333334⟩ : Timespec).ns :=
  ⟨⟨by decide, by decide⟩,
    (C6_wait_resumes_remaining ⟨0, 33333334⟩ [10000000, 20000000] SleepEvent.completes
      [SleepEvent.interrupted 5] (by decide) (by decide)
      (fun _ h => SleepEvent.noConfusion h)).1,
    (C6_wait_resumes_remaining ⟨0, 33333334⟩ [10000000, 20000000] SleepEvent.completes
      [SleepEvent.interrupted 5] (by decide) (by decide)
      (fun _ h => SleepEvent.noConfusion h)).2.2.2.1 rfl⟩

end Rtpgen
